import Mathlib

/-!
# Audacity: `StretchingSequence`, `SelectionState` and `WaveTrack::Region`

Shallow embedding of

* `libraries/lib-stretching-sequence/StretchingSequence.cpp`
  (`GetOffsetBuffer`, `ResetCursor`, `GetNext`, `Get`, `GetFloats`, `MutableGet`),
* `libraries/lib-track-selection/SelectionState.cpp`
  (`SelectTrackLength`, `SelectTrack`, `SelectRangeOfTracks`, `SelectNone`,
  `ChangeSelectionOnShiftClick`, `HandleListSelection`, and `SelectionStateChanger`:
  constructor, destructor, `Commit`),
* `libraries/lib-wave-track/WaveTrack.h` (`WaveTrack::Region`).

Conventions of the embedding.

* `size_t` is 64 bits wide and `unsigned int` is 32 bits wide (LP64 / LLP64 targets).
  Unsigned arithmetic is written over `Nat` with an explicit reduction modulo `2 ^ w`.
* `sampleCount` wraps a `long long`; it is embedded as `Int`, and a `size_t` count converted to
  it (`static_cast<sampleCount::type>(numSamples)`) as the same number.  Positions and counts
  are taken to stay within the range of `long long`, outside of which the C++ arithmetic is
  undefined.
* A sample is an element of an arbitrary type `α` with a zero (`0.f`); samples are only copied.
* `double` times are elements of an arbitrary type `τ`; the conversions between sample positions
  and times are not part of the embedded files and are parameters.  The conversion of a
  `long long` to `double`, with which `MutableGet` starts the computation of a time, is
  `as_double`.
* `AudioSegment` and `AudioSegmentFactoryInterface` are abstract classes declared elsewhere; their
  virtual functions are parameters (`AudioSegment`, `Decorated.CreateAudioSegmentSequence`).
* Loops that the source does not bound are given a fuel argument; `none` means that the fuel ran
  out before the loop condition became false.
* The channel count `NChannels()` is below `2 ^ 32`, so that the channel loops
  `for (auto i = 0u; i < numChannels; ++i)` visit every channel and end.
* In `SelectionState.cpp` a track is named by its identity, and the track list is the list of
  its leaders; `TrackList`, `Track`, `SyncLock` and `ViewInfo` are declared elsewhere.
* In `WaveTrack.h` only `WaveTrack::Region` has a body; a `double` there is either not-a-number
  or a value of a linearly ordered type.
-/

set_option linter.unusedVariables false

namespace Audacity

/-! ## Data model -/

/-- The enumeration `PlaybackDirection`. -/
inductive PlaybackDirection where
  | forward
  | backward
  deriving DecidableEq, Repr

/-- Width of `unsigned int`. -/
def UINT_BITS : Nat := 32

/-- Width of `size_t`. -/
def SIZE_BITS : Nat := 64

/-- Conversion of a `size_t` value to `unsigned int` (as done by `numProcessedSamples += ...`,
where `numProcessedSamples` is declared by `auto numProcessedSamples = 0u`). -/
def toUnsigned (n : Nat) : Nat := n % 2 ^ UINT_BITS

/-- Subtraction of two `size_t` values: `a - b` modulo `2 ^ 64`. -/
def sizeSub (a b : Nat) : Nat :=
  (a % 2 ^ SIZE_BITS + 2 ^ SIZE_BITS - b % 2 ^ SIZE_BITS) % 2 ^ SIZE_BITS

/-- The type `sampleCount` (a `long long`). -/
abbrev sampleCount := Int

/-- The caller's `float* buffers[]`: `buffers c i` is the float at index `i` of channel `c`. -/
abbrev Buffers (α : Type) := Nat → Nat → α

/-- What one call of `AudioSegment::GetFloats` hands back: the returned count and, for each channel
`c` and each `i < count`, the sample `data c i` it stored at index `i` of the buffer it was given. -/
structure Chunk (α : Type) where
  count : Nat
  data : Nat → Nat → α

/-- The virtual functions of `AudioSegment` used by the decorator, over the segment states `σ`:
`GetFloats seg numSamples` gives the chunk produced and the segment after the call;
`Empty seg` is `AudioSegment::Empty`. -/
structure AudioSegment (σ α : Type) where
  GetFloats : σ → Nat → Chunk α × σ
  Empty : σ → Bool

/-- The constant members of a `StretchingSequence`: the decorated sequence `mSequence`
(`NChannels()`, and `GetRate()` through the time conversions) and `mAudioSegmentFactory`. -/
structure Decorated (σ τ α : Type) where
  /-- `mSequence.NChannels()` -/
  NChannels : Nat
  /-- `start.as_double() / mSequence.GetRate()` -/
  sampleTime : sampleCount → τ
  /-- The literal `0.` passed by `GetNext` to `ResetCursor` -/
  timeZero : τ
  /-- `TimeToLongSamples(t)` -/
  TimeToLongSamples : τ → sampleCount
  /-- `mAudioSegmentFactory->CreateAudioSegmentSequence(t, direction)` -/
  CreateAudioSegmentSequence : τ → PlaybackDirection → List σ
  /-- The segment operations -/
  segment : AudioSegment σ α

/-- The number of low binary digits of `m` that do not fit into the 53-digit significand of a
`double`: 0 when `m < 2 ^ 53`.  `bits` bounds the count (a `long long` has 64 digits). -/
def excessBits : Nat → Nat → Nat
  | 0, _ => 0
  | bits + 1, m => if m < 2 ^ 53 then 0 else excessBits bits (m / 2) + 1

/-- `sampleCount::as_double()`, the conversion `(double)value` of the wrapped `long long`, with
the resulting `double` held as the whole number it stands for (IEEE 754 binary64, rounding to
nearest, ties to even): a value of magnitude up to `2 ^ 53` converts exactly; of a larger one
only the leading 53 binary digits are kept, rounded to the nearest such number, and to the one
with an even last digit when two are equally near.  `sampleCount` is declared elsewhere. -/
def as_double (value : Int) : Int :=
  let m := value.natAbs
  let k := excessBits 64 m
  let q := m / 2 ^ k
  let rest := m % 2 ^ k
  let roundUp := decide (2 ^ k < 2 * rest) || (decide (2 * rest = 2 ^ k) && decide (q % 2 = 1))
  let rounded := (if roundUp then q + 1 else q) * 2 ^ k
  if value < 0 then -(rounded : Int) else (rounded : Int)

/-- The time of a sample position is computed from the `double` that `start.as_double()` gives
(`start.as_double() / mSequence.GetRate()` in `MutableGet`). -/
def Decorated.TimeThroughDouble {σ τ α : Type} (d : Decorated σ τ α) : Prop :=
  ∃ divideByRate : Int → τ, ∀ start, d.sampleTime start = divideByRate (as_double start)

/-- The mutable members of a `StretchingSequence`.  The vector `mAudioSegments` together with the
iterator `mActiveAudioSegmentIt` is held as the segments before the iterator (`mPassed`) and the
segments from the iterator on (`mActive`): the iterator is `end()` iff `mActive = []`, and
`begin()` iff `mPassed = []`.  `mCreateCalls` is a ghost record of the arguments of every
`CreateAudioSegmentSequence` call made so far. -/
structure StretchingSequence (σ τ : Type) where
  mPassed : List σ
  mActive : List σ
  mExpectedStart : Option sampleCount
  mPlaybackDirection : PlaybackDirection
  mCreateCalls : List (τ × PlaybackDirection)

/-- The vector `mAudioSegments`. -/
def StretchingSequence.mAudioSegments {σ τ : Type} (s : StretchingSequence σ τ) : List σ :=
  s.mPassed ++ s.mActive

/-- A freshly constructed decorator: empty segment vector, iterator at its end, no expected
start, direction forward. -/
def StretchingSequence.init (σ τ : Type) : StretchingSequence σ τ :=
  { mPassed := [], mActive := [], mExpectedStart := none,
    mPlaybackDirection := PlaybackDirection.forward, mCreateCalls := [] }

/-- The vector of pointers `buffer[i] + offset`, `i < numChannels`, made by `GetOffsetBuffer`. -/
structure OffsetBuffer where
  numChannels : Nat
  offset : Nat
  deriving DecidableEq, Repr

/-- `GetOffsetBuffer(buffer, numChannels, offset)`. -/
def GetOffsetBuffer (numChannels offset : Nat) : OffsetBuffer :=
  { numChannels := numChannels, offset := offset }

/-- Memory after a segment stored `chunk` through the pointers `ob`. -/
def OffsetBuffer.store {α : Type} (ob : OffsetBuffer) (mem : Buffers α) (chunk : Chunk α) :
    Buffers α :=
  fun c i =>
    if c < ob.numChannels ∧ ob.offset ≤ i ∧ i < ob.offset + chunk.count then
      chunk.data c (i - ob.offset)
    else mem c i

/-- Memory after `std::fill(offsetBuffers[i], offsetBuffers[i] + remaining, 0.f)` for every
`i < numChannels`. -/
def OffsetBuffer.fillZero {α : Type} [Zero α] (ob : OffsetBuffer) (mem : Buffers α)
    (remaining : Nat) : Buffers α :=
  fun c i =>
    if c < ob.numChannels ∧ ob.offset ≤ i ∧ i < ob.offset + remaining then 0 else mem c i

/-! ## `StretchingSequence.cpp` -/

/-- `StretchingSequence::ResetCursor(t, direction)`. -/
def ResetCursor {σ τ α : Type} (d : Decorated σ τ α) (s : StretchingSequence σ τ) (t : τ)
    (direction : PlaybackDirection) : StretchingSequence σ τ :=
  { mPassed := []
    mActive := d.CreateAudioSegmentSequence t direction
    mPlaybackDirection := direction
    mExpectedStart := some (d.TimeToLongSamples t)
    mCreateCalls := s.mCreateCalls ++ [(t, direction)] }

/-- The local state of the `while` loop of `GetNext`.  `chunks` is a ghost record of what the
`GetFloats` calls returned, in call order. -/
structure Walk (σ α : Type) where
  passed : List σ
  active : List σ
  numProcessedSamples : Nat
  buffers : Buffers α
  chunks : List (Chunk α)

/-- One run of the body of the `while` loop of `GetNext`, with `segment` the active segment and
`rest` the segments after it. -/
def walkBody {σ τ α : Type} (d : Decorated σ τ α) (numSamples : Nat) (w : Walk σ α) (segment : σ)
    (rest : List σ) : Walk σ α :=
  let offsetBuffers := GetOffsetBuffer d.NChannels w.numProcessedSamples
  let r := d.segment.GetFloats segment (sizeSub numSamples w.numProcessedSamples)
  { passed := if d.segment.Empty r.2 then w.passed ++ [r.2] else w.passed
    active := if d.segment.Empty r.2 then rest else r.2 :: rest
    numProcessedSamples := toUnsigned (w.numProcessedSamples + r.1.count)
    buffers := offsetBuffers.store w.buffers r.1
    chunks := w.chunks ++ [r.1] }

/-- The `while` loop of `GetNext`. -/
def walkLoop {σ τ α : Type} (d : Decorated σ τ α) (numSamples : Nat) :
    Nat → Walk σ α → Option (Walk σ α)
  | fuel, w =>
    if w.numProcessedSamples < numSamples then
      match w.active with
      | [] => some w
      | segment :: rest =>
        match fuel with
        | 0 => none
        | fuel + 1 => walkLoop d numSamples fuel (walkBody d numSamples w segment rest)
    else some w

/-- What a call of `GetNext` leaves behind: the returned `bool`, the decorator, the caller's
buffers, and the ghost record of the chunks the segments returned during the call. -/
structure Pulled (σ τ α : Type) where
  result : Bool
  seq : StretchingSequence σ τ
  buffers : Buffers α
  chunks : List (Chunk α)

/-- The cursor with which the segment walk of `GetNext` starts. -/
def cursorForWalk {σ τ α : Type} (d : Decorated σ τ α) (s : StretchingSequence σ τ) :
    StretchingSequence σ τ :=
  if s.mExpectedStart.isSome then s else ResetCursor d s d.timeZero PlaybackDirection.forward

/-- The part of `GetNext` after the `while` loop. -/
def finishPull {σ τ α : Type} [Zero α] (d : Decorated σ τ α) (s : StretchingSequence σ τ)
    (numSamples : Nat) (w : Walk σ α) : Pulled σ τ α :=
  let remaining := sizeSub numSamples w.numProcessedSamples
  let buffers :=
    if 0 < remaining then
      (GetOffsetBuffer d.NChannels w.numProcessedSamples).fillZero w.buffers remaining
    else w.buffers
  { result := true
    seq :=
      { mPassed := w.passed
        mActive := w.active
        mExpectedStart :=
          s.mExpectedStart.map fun e =>
            if s.mPlaybackDirection = PlaybackDirection.forward then e + (numSamples : Int)
            else e - (numSamples : Int)
        mPlaybackDirection := s.mPlaybackDirection
        mCreateCalls := s.mCreateCalls }
    buffers := buffers
    chunks := w.chunks }

/-- `StretchingSequence::GetNext(buffers, numChannels, numSamples)`. -/
def GetNext {σ τ α : Type} [Zero α] (d : Decorated σ τ α) (fuel : Nat)
    (s : StretchingSequence σ τ) (buffers : Buffers α) (numChannels numSamples : Nat) :
    Option (Pulled σ τ α) :=
  let s1 := cursorForWalk d s
  (walkLoop d numSamples fuel
      { passed := s1.mPassed, active := s1.mActive, numProcessedSamples := 0,
        buffers := buffers, chunks := [] }).map
    (finishPull d s1 numSamples)

/-- How a call of `MutableGet` ends: either `assert(iChannel == 0u)` fails (the `assert` is
embedded as in a build without `NDEBUG`, where a failed assertion aborts), with the decorator and
the buffers as they are at that moment, or the call returns. -/
inductive Outcome (σ τ α : Type) where
  | assertionFailure : StretchingSequence σ τ → Buffers α → Outcome σ τ α
  | returned : Pulled σ τ α → Outcome σ τ α

/-- The expression `backwards ? PlaybackDirection::backward : PlaybackDirection::forward`. -/
def directionOf (backwards : Bool) : PlaybackDirection :=
  if backwards then PlaybackDirection.backward else PlaybackDirection.forward

/-- The condition under which `MutableGet` calls `ResetCursor`. -/
def mustSeek {σ τ : Type} (s : StretchingSequence σ τ) (start : sampleCount) (backwards : Bool) :
    Bool :=
  !s.mExpectedStart.isSome || s.mExpectedStart != some start ||
    ((s.mPlaybackDirection == PlaybackDirection.backward) != backwards)

/-- `StretchingSequence::MutableGet(iChannel, nBuffers, buffers, format, start, len, backwards)`
(`format` is not used by the body). -/
def MutableGet {σ τ α : Type} [Zero α] (d : Decorated σ τ α) (fuel : Nat)
    (s : StretchingSequence σ τ) (iChannel nBuffers : Nat) (buffers : Buffers α)
    (start : sampleCount) (len : Nat) (backwards : Bool) : Option (Outcome σ τ α) :=
  if iChannel ≠ 0 then some (Outcome.assertionFailure s buffers)
  else
    let s1 :=
      if mustSeek s start backwards then
        ResetCursor d s (d.sampleTime start) (directionOf backwards)
      else s
    (GetNext d fuel s1 buffers nBuffers len).map Outcome.returned

/-- `StretchingSequence::Get(iChannel, nBuffers, buffers, format, start, len, backwards, ...)`:
forwards to `MutableGet` (`fill`, `mayThrow` and `pNumWithinClips` are dropped). -/
def Get {σ τ α : Type} [Zero α] (d : Decorated σ τ α) (fuel : Nat)
    (s : StretchingSequence σ τ) (iChannel nBuffers : Nat) (buffers : Buffers α)
    (start : sampleCount) (len : Nat) (backwards : Bool) : Option (Outcome σ τ α) :=
  MutableGet d fuel s iChannel nBuffers buffers start len backwards

/-- `StretchingSequence::GetFloats(buffers, start, len, backwards)`. -/
def GetFloats {σ τ α : Type} [Zero α] (d : Decorated σ τ α) (fuel : Nat)
    (s : StretchingSequence σ τ) (buffers : Buffers α) (start : sampleCount) (len : Nat)
    (backwards : Bool) : Option (Outcome σ τ α) :=
  let nChannels := d.NChannels
  let iChannel := 0
  Get d fuel s iChannel nChannels buffers start len backwards


/-! ## Segments that hold a run of frames -/

/-- Modelled from the spec: `AudioSegment.h` is not among the embedded files.  A Segment
"represents either read up to K samples from Clip C at offset O, direction D or emit K silent
samples".  Such a segment is held as the frames it still has to deliver (a frame gives one sample
per channel); `GetFloats` delivers as many frames as requested or as remain, whichever is smaller,
and the segment is `Empty` when no frame remains. -/
def runSegment (α : Type) [Zero α] : AudioSegment (List (Nat → α)) α where
  GetFloats := fun frames numSamples =>
    ({ count := min numSamples frames.length
       data := fun c i => match frames[i]? with
         | some frame => frame c
         | none => 0 },
     frames.drop (min numSamples frames.length))
  Empty := fun frames => frames.isEmpty

/-- Modelled from the spec: a clip-backed segment over the given frames. -/
def clipSegment {α : Type} (frames : List (Nat → α)) : List (Nat → α) := frames

/-- Modelled from the spec: a segment that emits `k` silent frames. -/
def silenceSegment (α : Type) [Zero α] (k : Nat) : List (Nat → α) :=
  List.replicate k (fun _ => 0)

/-- Modelled from the spec: a Clip, "a contiguous, time-positioned run of audio samples", on a
track of rate 1 (one sample per second), where a time is a whole number of samples: the start
time and the frames of the clip.  `ClipInterface` is not among the embedded files. -/
structure Clip (α : Type) where
  start : Int
  frames : List (Nat → α)

/-- Modelled from the spec: the end time of a clip at rate 1. -/
def Clip.endTime {α : Type} (clip : Clip α) : Int := clip.start + clip.frames.length

/-- Modelled from the spec: the Segment Provider read forward from time `t0` over clips given in
the order of their start times: "an ordered sequence of Segments that, when each is drained in
order, exactly reconstructs the requested stream, including silence for any time not covered by a
clip"; the sequence ends where the track ends.  `AudioSegmentFactory` is not among the embedded
files. -/
def segmentsForward {α : Type} [Zero α] : List (Clip α) → Int → List (List (Nat → α))
  | [], _ => []
  | clip :: clips, t0 =>
    if t0 < clip.start then
      silenceSegment α (clip.start - t0).toNat :: clipSegment clip.frames ::
        segmentsForward clips clip.endTime
    else if clip.endTime ≤ t0 then segmentsForward clips t0
    else
      clipSegment (clip.frames.drop (t0 - clip.start).toNat) ::
        segmentsForward clips clip.endTime

/-- Modelled from the spec: the Segment Provider read backward from time `t0` over clips given
in the reverse order of their start times: "when direction is backward, segment boundaries and
per-segment internal sample order both invert". -/
def segmentsBackward {α : Type} [Zero α] : List (Clip α) → Int → List (List (Nat → α))
  | [], _ => []
  | clip :: clips, t0 =>
    if clip.endTime < t0 then
      silenceSegment α (t0 - clip.endTime).toNat :: clipSegment clip.frames.reverse ::
        segmentsBackward clips clip.start
    else if t0 ≤ clip.start then segmentsBackward clips t0
    else
      clipSegment (clip.frames.take (t0 - clip.start).toNat).reverse ::
        segmentsBackward clips clip.start

/-- Modelled from the spec: the decorated track of rate 1 with `numChannels` channels and the
given clips (in the order of their start times), as `StretchingSequence::Create` sets it up: the
factory is the Segment Provider over the clips, and at rate 1 the time of a sample position is the
position itself. -/
def trackAtRateOne {α : Type} [Zero α] (numChannels : Nat) (clips : List (Clip α)) :
    Decorated (List (Nat → α)) Int α where
  NChannels := numChannels
  sampleTime := fun start => start
  timeZero := 0
  TimeToLongSamples := fun t => t
  CreateAudioSegmentSequence := fun t direction =>
    match direction with
    | PlaybackDirection.forward => segmentsForward clips t
    | PlaybackDirection.backward => segmentsBackward clips.reverse t
  segment := runSegment α

/-- A mono frame holding the sample `x`. -/
def monoFrame {α : Type} (x : α) : Nat → α := fun _ => x

/-- The track of the scenario "clips `[0,2)` and `[5,7)` at rate 1", mono, with samples
`a0 a1` in the first clip and `b0 b1` in the second. -/
def twoClipTrack {α : Type} [Zero α] (a0 a1 b0 b1 : α) : Decorated (List (Nat → α)) Int α :=
  trackAtRateOne 1
    [{ start := 0, frames := [monoFrame a0, monoFrame a1] },
     { start := 5, frames := [monoFrame b0, monoFrame b1] }]

/-- Buffers holding the same value everywhere. -/
def constBuffers {α : Type} (x : α) : Buffers α := fun _ _ => x

/-! ## Contracts of segments -/

/-- A segment never returns more samples than it was asked for. -/
def AudioSegment.AtMostRequested {σ α : Type} (seg : AudioSegment σ α) : Prop :=
  ∀ s n, (seg.GetFloats s n).1.count ≤ n

/-- A segment returns zero samples on a call with a positive request only if it is `Empty`
after the call. -/
def AudioSegment.ZeroOnlyIfEmpty {σ α : Type} (seg : AudioSegment σ α) : Prop :=
  ∀ s n, 0 < n → (seg.GetFloats s n).1.count = 0 → seg.Empty (seg.GetFloats s n).2 = true

/-- The samples of channel `c` in one chunk, in index order. -/
def Chunk.samples {α : Type} (chunk : Chunk α) (c : Nat) : List α :=
  (List.range chunk.count).map (chunk.data c)

/-- The samples of channel `c` that a list of `GetFloats` calls returned, concatenated in call
order. -/
def concatSamples {α : Type} (chunks : List (Chunk α)) (c : Nat) : List α :=
  (chunks.map fun chunk => chunk.samples c).flatten

/-- The total number of samples that a list of `GetFloats` calls returned. -/
def totalCount {α : Type} (chunks : List (Chunk α)) : Nat :=
  (chunks.map Chunk.count).sum

/-- The loop invariant of the segment walk while the 32-bit counter has not wrapped: the counter
is the total number of samples returned so far, and the buffers hold, from index 0 up to the
counter, the returned samples in call order. -/
def Walk.Consistent {σ α : Type} (numChannels : Nat) (w : Walk σ α) : Prop :=
  w.numProcessedSamples = totalCount w.chunks ∧
    ∀ c, c < numChannels → ∀ i, i < w.numProcessedSamples →
      (concatSamples w.chunks c)[i]? = some (w.buffers c i)

/-! ## Pulls over segments that hold a run of frames, in closed form -/

/-- The frames that a list of run segments still holds, in list order. -/
def framesOf {α : Type} (segments : List (List (Nat → α))) : List (Nat → α) :=
  segments.flatten

/-- The sample of channel `c` in frame `i` of a list of frames, and zero past its end. -/
def frameSample {α : Type} [Zero α] (frames : List (Nat → α)) (c i : Nat) : α :=
  match frames[i]? with
  | some frame => frame c
  | none => 0

/-- The segments before the iterator and from the iterator on, after `m` more samples were
requested from a list of run segments: a segment that `m` exhausts is left empty behind the
iterator, and a segment is not touched once `m` has come down to zero. -/
def advanceRuns {α : Type} :
    Nat → List (List (Nat → α)) → List (List (Nat → α)) →
      List (List (Nat → α)) × List (List (Nat → α))
  | _, passed, [] => (passed, [])
  | m, passed, segment :: rest =>
    if m = 0 then (passed, segment :: rest)
    else if segment.length ≤ m then advanceRuns (m - segment.length) (passed ++ [[]]) rest
    else (passed, segment.drop m :: rest)

/-- The cursor that `MutableGet` hands to `GetNext`: rebuilt by `ResetCursor` when the cursor is
uninitialized or does not match the request, and as it is otherwise. -/
def cursorForGet {σ τ α : Type} (d : Decorated σ τ α) (s : StretchingSequence σ τ)
    (start : sampleCount) (backwards : Bool) : StretchingSequence σ τ :=
  if s.mExpectedStart = none ∨ s.mExpectedStart ≠ some start ∨
      s.mPlaybackDirection ≠ directionOf backwards
  then ResetCursor d s (d.sampleTime start) (directionOf backwards) else s

/-- A segment that delivers the sample `1` on every channel: the state is the number of frames it
still has, `GetFloats` delivers as many frames as requested or as remain, whichever is smaller,
and the segment is `Empty` when no frame remains. -/
def toneSegment : AudioSegment Nat Int where
  GetFloats := fun left numSamples =>
    ({ count := min numSamples left, data := fun _ _ => 1 }, left - min numSamples left)
  Empty := fun left => left == 0

/-- A mono decorated sequence at rate 1 whose factory answers every request with one tone
segment of `frames` frames. -/
def toneTrack (frames : Nat) : Decorated Nat Int Int where
  NChannels := 1
  sampleTime := fun start => start
  timeZero := 0
  TimeToLongSamples := fun t => t
  CreateAudioSegmentSequence := fun _ _ => [frames]
  segment := toneSegment

/-- A segment that never runs out: every call delivers the sample `1` for the whole request and
the segment is never `Empty`. -/
def endlessSegment : AudioSegment Unit Int where
  GetFloats := fun _ numSamples => ({ count := numSamples, data := fun _ _ => 1 }, ())
  Empty := fun _ => false

/-- A mono decorated sequence at rate 1 whose factory answers every request with one endless
segment. -/
def endlessTrack : Decorated Unit Int Int where
  NChannels := 1
  sampleTime := fun start => start
  timeZero := 0
  TimeToLongSamples := fun t => t
  CreateAudioSegmentSequence := fun _ _ => [()]
  segment := endlessSegment

/-! ## `SelectionState.cpp`: `SelectionStateChanger` -/

/-- A leader track as the selection code sees it: its identity (the `Track` object) and its
selected flag (`GetSelected` / `SetSelected`). -/
structure Track where
  id : Nat
  selected : Bool
  deriving DecidableEq, Repr

/-- The range `tracks.Leaders()` of a `TrackList`, in list order. -/
abbrev TrackList := List Track

/-- The member of `SelectionState`: `mLastPickedTrack`, a weak pointer to a track, held as the
identity of the track it points to, or `none` when it is empty. -/
structure SelectionState where
  mLastPickedTrack : Option Nat
  deriving DecidableEq, Repr

/-- The members of `SelectionStateChanger`.  `mpState` is held as `true` while the pointer is not
null; the state and the track list it refers to are passed to the destructor. -/
structure SelectionStateChanger where
  mpState : Bool
  mInitialLastPickedTrack : Option Nat
  mInitialTrackSelection : List Bool
  deriving DecidableEq, Repr

/-- `SelectionStateChanger::SelectionStateChanger(state, tracks)`. -/
def SelectionStateChanger.construct (state : SelectionState) (tracks : TrackList) :
    SelectionStateChanger :=
  { mpState := true
    mInitialLastPickedTrack := state.mLastPickedTrack
    mInitialTrackSelection := tracks.map fun track => track.selected }

/-- `SelectionStateChanger::Commit()`. -/
def SelectionStateChanger.Commit (changer : SelectionStateChanger) : SelectionStateChanger :=
  { changer with mpState := false }

/-- The loop of the destructor: `for (auto track : mTracks.Leaders())` with
`if (it == end) break; track->SetSelected(*it++)`. -/
def restoreSelection : TrackList → List Bool → TrackList
  | [], _ => []
  | track :: tracks, [] => track :: tracks
  | track :: tracks, flag :: flags =>
    { track with selected := flag } :: restoreSelection tracks flags

/-- `SelectionStateChanger::~SelectionStateChanger()`, run when the state is `state` and the
leaders of the track list are `tracks`; it gives the state and the leaders afterwards. -/
def SelectionStateChanger.destroy (changer : SelectionStateChanger) (state : SelectionState)
    (tracks : TrackList) : SelectionState × TrackList :=
  if changer.mpState then
    ({ mLastPickedTrack := changer.mInitialLastPickedTrack },
      restoreSelection tracks changer.mInitialTrackSelection)
  else (state, tracks)

/-! ## `SelectionState.cpp`: the selection operations -/

/-- `track.SetSelected(selected)` on the leader of identity `track`, seen on the leaders of the
list. -/
def SetSelected (tracks : TrackList) (track : Nat) (selected : Bool) : TrackList :=
  tracks.map fun t => if t.id = track then { t with selected := selected } else t

/-- `track.GetSelected()` for the leader of identity `track` of the list. -/
def GetSelected (tracks : TrackList) (track : Nat) : Bool :=
  match tracks.find? (fun t => t.id == track) with
  | some t => t.selected
  | none => false

/-- `SelectionState::SelectTrack(track, selected, updateLastPicked)`: the state and the leaders
afterwards. -/
def SelectTrack (st : SelectionState × TrackList) (track : Nat)
    (selected updateLastPicked : Bool) : SelectionState × TrackList :=
  (if updateLastPicked then { mLastPickedTrack := some track } else st.1,
    SetSelected st.2 track selected)

/-- `std::distance(tracks.Leaders().begin(), tracks.FindLeader(track))`: the position of the
track among the leaders, and the number of leaders (`end()`) for a track that is not in the
list. -/
def FindLeader (tracks : TrackList) (track : Nat) : Nat :=
  (tracks.map Track.id).indexOf track

/-- `range.StartingWith(track)`: the part of the range from the track on.  `TrackIterRange` is not
among the embedded files. -/
def StartingWith (range : TrackList) (track : Nat) : TrackList :=
  range.drop (FindLeader range track)

/-- `range.EndingAfter(track)`: the part of the range up to and including the track. -/
def EndingAfter (range : TrackList) (track : Nat) : TrackList :=
  range.take (FindLeader range track + 1)

/-- `SelectionState::SelectRangeOfTracks(tracks, rsTrack, reTrack)`. -/
def SelectRangeOfTracks (st : SelectionState × TrackList) (rsTrack reTrack : Nat) :
    SelectionState × TrackList :=
  let indS := FindLeader st.2 rsTrack
  let indE := FindLeader st.2 reTrack
  let sTrack := if indE < indS then reTrack else rsTrack
  let eTrack := if indE < indS then rsTrack else reTrack
  (EndingAfter (StartingWith st.2 sTrack) eTrack).foldl
    (fun st track => SelectTrack st track.id true false) st

/-- `SelectionState::SelectNone(tracks)`. -/
def SelectNone (st : SelectionState × TrackList) : SelectionState × TrackList :=
  st.2.foldl (fun st t => SelectTrack st t.id false false) st

/-- `tracks.SelectedLeaders()`. -/
def SelectedLeaders (tracks : TrackList) : TrackList :=
  tracks.filter fun t => t.selected

/-- `tracks.Lock(wTrack)`: the track that the weak pointer points to, if that track is in this
list. -/
def Lock (tracks : TrackList) (wTrack : Option Nat) : Option Nat :=
  match wTrack with
  | some track => if track ∈ tracks.map Track.id then some track else none
  | none => none

/-- The track `pExtendFrom` that `ChangeSelectionOnShiftClick` works out before it changes the
selection. -/
def extendFrom (st : SelectionState × TrackList) (track : Nat) : Option Nat :=
  match Lock st.2 st.1.mLastPickedTrack with
  | some p => some p
  | none =>
    let trackRange := SelectedLeaders st.2
    let fromFirst :=
      match trackRange.head? with
      | some pFirst =>
        if FindLeader st.2 track ≥ FindLeader st.2 pFirst.id then some pFirst.id else none
      | none => none
    match fromFirst with
    | some p => some p
    | none => trackRange.getLast?.map Track.id

/-- `SelectionState::ChangeSelectionOnShiftClick(tracks, track)`. -/
def ChangeSelectionOnShiftClick (st : SelectionState × TrackList) (track : Nat) :
    SelectionState × TrackList :=
  let pExtendFrom := extendFrom st track
  let st1 := SelectNone st
  let st2 :=
    match pExtendFrom with
    | some p => SelectRangeOfTracks st1 track p
    | none => SelectTrack st1 track true true
  ({ mLastPickedTrack := pExtendFrom }, st2.2)

/-- The member of `ViewInfo` that the selection code writes: the two times last handed to
`selectedRegion.setTimes`. -/
structure ViewInfo (T : Type) where
  selectedRegion : T × T

/-- `viewInfo.selectedRegion.setTimes(t0, t1)`. -/
def ViewInfo.setTimes {T : Type} (viewInfo : ViewInfo T) (t0 t1 : T) : ViewInfo T :=
  { viewInfo with selectedRegion := (t0, t1) }

/-- What `SelectTrackLength` asks of code that is not among the embedded files, over times of
type `T` (`double`, compared only): `Track::GetOffset`, `Track::GetEndTime`, the tracks of
`SyncLock::Group(&track)` and of `TrackList::Channels(&track)`, and the values that
`TrackIterRange::min` and `TrackIterRange::max` give for an empty range. -/
structure TrackQueries (T : Type) where
  GetOffset : Nat → T
  GetEndTime : Nat → T
  Group : Nat → List Nat
  Channels : Nat → List Nat
  emptyMin : T
  emptyMax : T

/-- `trackRange.min(&Track::GetOffset)`: the least value of the function over the range. -/
def rangeMin {T : Type} [LinearOrder T] (q : TrackQueries T) (range : List Nat) (f : Nat → T) :
    T :=
  match range with
  | [] => q.emptyMin
  | t :: ts => ts.foldl (fun m x => min m (f x)) (f t)

/-- `trackRange.max(&Track::GetEndTime)`: the greatest value of the function over the range. -/
def rangeMax {T : Type} [LinearOrder T] (q : TrackQueries T) (range : List Nat) (f : Nat → T) :
    T :=
  match range with
  | [] => q.emptyMax
  | t :: ts => ts.foldl (fun m x => max m (f x)) (f t)

/-- `SelectionState::SelectTrackLength(viewInfo, track, syncLocked)`: the view info and the
leaders afterwards.  The body calls nothing on a track but the queries above, so the leaders
come back as they went in. -/
def SelectTrackLength {T : Type} [LinearOrder T] (q : TrackQueries T) (viewInfo : ViewInfo T)
    (tracks : TrackList) (track : Nat) (syncLocked : Bool) : ViewInfo T × TrackList :=
  let trackRange := if syncLocked then q.Group track else q.Channels track
  let minOffset := rangeMin q trackRange q.GetOffset
  let maxEnd := rangeMax q trackRange q.GetEndTime
  (viewInfo.setTimes minOffset maxEnd, tracks)

/-- `mLastPickedTrack.lock()` as a condition: the weak pointer is not empty and the track it
points to still exists (`alive`). -/
def lockAlive (alive : Nat → Bool) (wTrack : Option Nat) : Bool :=
  match wTrack with
  | some track => alive track
  | none => false

/-- `SelectionState::HandleListSelection(tracks, viewInfo, track, shift, ctrl, syncLocked)`. -/
def HandleListSelection {T : Type} [LinearOrder T] (q : TrackQueries T) (alive : Nat → Bool)
    (st : SelectionState × TrackList) (viewInfo : ViewInfo T) (track : Nat)
    (shift ctrl syncLocked : Bool) : (SelectionState × TrackList) × ViewInfo T :=
  if ctrl then (SelectTrack st track (!GetSelected st.2 track) true, viewInfo)
  else
    if shift && lockAlive alive st.1.mLastPickedTrack then
      (ChangeSelectionOnShiftClick st track, viewInfo)
    else
      let st1 := SelectTrack (SelectNone st) track true true
      let r := SelectTrackLength q viewInfo st1.2 track syncLocked
      ((st1.1, r.2), r.1)

/-- A track list of one selected leader, with an empty last-picked pointer. -/
def oneSelectedTrack : SelectionState × TrackList :=
  ({ mLastPickedTrack := none }, [{ id := 1, selected := true }])

/-- Five leaders of which the second and the fourth are selected, with an empty last-picked
pointer. -/
def fiveTracks : SelectionState × TrackList :=
  ({ mLastPickedTrack := none },
    [{ id := 1, selected := false }, { id := 2, selected := true },
      { id := 3, selected := false }, { id := 4, selected := true },
      { id := 5, selected := false }])

/-- The five leaders of `fiveTracks` with a last-picked pointer to a track (identity 9) that is
not in the list. -/
def fiveTracksStalePick : SelectionState × TrackList :=
  ({ mLastPickedTrack := some 9 }, fiveTracks.2)

/-- Queries over whole-number times in which every track starts at its identity and lasts ten
seconds, and is alone in its sync-lock group and in its channel group. -/
def unitQueries : TrackQueries Int where
  GetOffset := fun track => track
  GetEndTime := fun track => track + 10
  Group := fun track => [track]
  Channels := fun track => [track]
  emptyMin := 0
  emptyMax := 0

/-- Queries over whole-number times with a sync-lock group of three tracks, of extents
`[4, 9]`, `[2, 5]` and `[3, 12]`. -/
def groupQueries : TrackQueries Int where
  GetOffset := fun track => if track = 1 then 4 else if track = 2 then 2 else 3
  GetEndTime := fun track => if track = 1 then 9 else if track = 2 then 5 else 12
  Group := fun _ => [1, 2, 3]
  Channels := fun track => [track]
  emptyMin := 0
  emptyMax := 0

/-! ## `WaveTrack.h`: `WaveTrack::Region` -/

/-- A `double` as far as comparisons go: not-a-number, or a value of a linearly ordered type `T`
(the finite values and the two infinities). -/
inductive Double (T : Type) where
  | nan : Double T
  | num : T → Double T

/-- `a < b` on `double`: false as soon as one side is not-a-number. -/
def Double.lt {T : Type} [LinearOrder T] : Double T → Double T → Bool
  | Double.num x, Double.num y => decide (x < y)
  | _, _ => false

/-- `a <= b` on `double`: false as soon as one side is not-a-number. -/
def Double.le {T : Type} [LinearOrder T] : Double T → Double T → Bool
  | Double.num x, Double.num y => decide (x ≤ y)
  | _, _ => false

/-- `WaveTrack::Region`. -/
structure Region (T : Type) where
  start : Double T
  end_ : Double T

/-- `WaveTrack::Region::operator <`. -/
def Region.lt {T : Type} [LinearOrder T] (a b : Region T) : Bool :=
  Double.lt a.start b.start

/-- The equivalence that `operator <` induces: neither region is less than the other. -/
def Region.equiv {T : Type} [LinearOrder T] (a b : Region T) : Prop :=
  Region.lt a b = false ∧ Region.lt b a = false

/-- A sequence is sorted with `operator <` when no element is less than an element before it
(what `std::sort` establishes). -/
def Region.Sorted {T : Type} [LinearOrder T] (regions : List (Region T)) : Prop :=
  regions.Pairwise fun a b => Region.lt b a = false

/-- The start times of a sequence of regions are non-decreasing. -/
def Region.NonDecreasing {T : Type} [LinearOrder T] (regions : List (Region T)) : Prop :=
  regions.Pairwise fun a b => Double.le a.start b.start = true

/-! # Theorems -/

/-! ## Arithmetic of the machine integers -/

theorem toUnsigned_of_lt {n : Nat} (h : n < 2 ^ 32) : toUnsigned n = n := by
  unfold toUnsigned UINT_BITS
  exact Nat.mod_eq_of_lt h

theorem sizeSub_of_le {a b : Nat} (hab : b ≤ a) (ha : a < 2 ^ 64) : sizeSub a b = a - b := by
  unfold sizeSub SIZE_BITS
  have hb : b < 2 ^ 64 := lt_of_le_of_lt hab ha
  rw [Nat.mod_eq_of_lt ha, Nat.mod_eq_of_lt hb]
  omega

section Walk

variable {σ τ α : Type}

theorem walkLoop_done (d : Decorated σ τ α) (N fuel : Nat) (w : Walk σ α)
    (h : ¬ w.numProcessedSamples < N) : walkLoop d N fuel w = some w := by
  unfold walkLoop
  rw [if_neg h]

theorem walkLoop_end (d : Decorated σ τ α) (N fuel : Nat) (w : Walk σ α)
    (h : w.active = []) : walkLoop d N fuel w = some w := by
  unfold walkLoop
  rw [h]
  split <;> rfl

theorem walkLoop_step (d : Decorated σ τ α) (N fuel : Nat) (w : Walk σ α) (segment : σ)
    (rest : List σ) (hlt : w.numProcessedSamples < N) (h : w.active = segment :: rest) :
    walkLoop d N (fuel + 1) w = walkLoop d N fuel (walkBody d N w segment rest) := by
  rw [walkLoop, if_pos hlt, h]

theorem walkLoop_zero (d : Decorated σ τ α) (N : Nat) (w : Walk σ α) (segment : σ)
    (rest : List σ) (hlt : w.numProcessedSamples < N) (h : w.active = segment :: rest) :
    walkLoop d N 0 w = none := by
  rw [walkLoop, if_pos hlt, h]

theorem walkLoop_fuel_mono (d : Decorated σ τ α) (N : Nat) :
    ∀ (fuel : Nat) (w w' : Walk σ α), walkLoop d N fuel w = some w' →
      ∀ fuel', fuel ≤ fuel' → walkLoop d N fuel' w = some w' := by
  intro fuel
  induction fuel with
  | zero =>
    intro w w' h fuel' _
    by_cases hlt : w.numProcessedSamples < N
    · cases hact : w.active with
      | nil => rw [walkLoop_end d N _ w hact] at h ⊢; exact h
      | cons segment rest => rw [walkLoop_zero d N w segment rest hlt hact] at h; cases h
    · rw [walkLoop_done d N _ w hlt] at h ⊢; exact h
  | succ fuel ih =>
    intro w w' h fuel' hle
    by_cases hlt : w.numProcessedSamples < N
    · cases hact : w.active with
      | nil => rw [walkLoop_end d N _ w hact] at h ⊢; exact h
      | cons segment rest =>
        obtain ⟨k, rfl⟩ : ∃ k, fuel' = k + 1 := ⟨fuel' - 1, by omega⟩
        rw [walkLoop_step d N _ w segment rest hlt hact] at h ⊢
        exact ih _ _ h k (by omega)
    · rw [walkLoop_done d N _ w hlt] at h ⊢; exact h

theorem walkBody_numProcessedSamples (d : Decorated σ τ α) (N : Nat) (w : Walk σ α)
    (segment : σ) (rest : List σ) :
    (walkBody d N w segment rest).numProcessedSamples =
      toUnsigned (w.numProcessedSamples +
        (d.segment.GetFloats segment (sizeSub N w.numProcessedSamples)).1.count) := rfl

theorem walkBody_active (d : Decorated σ τ α) (N : Nat) (w : Walk σ α)
    (segment : σ) (rest : List σ) :
    (walkBody d N w segment rest).active =
      if d.segment.Empty (d.segment.GetFloats segment (sizeSub N w.numProcessedSamples)).2
      then rest
      else (d.segment.GetFloats segment (sizeSub N w.numProcessedSamples)).2 :: rest := rfl

theorem walkBody_chunks (d : Decorated σ τ α) (N : Nat) (w : Walk σ α)
    (segment : σ) (rest : List σ) :
    (walkBody d N w segment rest).chunks =
      w.chunks ++ [(d.segment.GetFloats segment (sizeSub N w.numProcessedSamples)).1] := rfl

theorem walkBody_buffers (d : Decorated σ τ α) (N : Nat) (w : Walk σ α)
    (segment : σ) (rest : List σ) :
    (walkBody d N w segment rest).buffers =
      (GetOffsetBuffer d.NChannels w.numProcessedSamples).store w.buffers
        (d.segment.GetFloats segment (sizeSub N w.numProcessedSamples)).1 := rfl

end Walk

/-! ## `GetNext` -/

section Pull

variable {σ τ α : Type} [Zero α]

omit [Zero α] in
theorem cursorForWalk_of_some (d : Decorated σ τ α) (s : StretchingSequence σ τ)
    (e : sampleCount) (h : s.mExpectedStart = some e) : cursorForWalk d s = s := by
  simp [cursorForWalk, h]

theorem GetNext_eq_some (d : Decorated σ τ α) (fuel : Nat) (s : StretchingSequence σ τ)
    (buffers : Buffers α) (numChannels N : Nat) (r : Pulled σ τ α)
    (h : GetNext d fuel s buffers numChannels N = some r) :
    ∃ w, walkLoop d N fuel
        { passed := (cursorForWalk d s).mPassed, active := (cursorForWalk d s).mActive,
          numProcessedSamples := 0, buffers := buffers, chunks := [] } = some w ∧
      r = finishPull d (cursorForWalk d s) N w := by
  simp only [GetNext, Option.map_eq_some'] at h
  obtain ⟨w, hw, rfl⟩ := h
  exact ⟨w, hw, rfl⟩

theorem finishPull_createCalls (d : Decorated σ τ α) (s : StretchingSequence σ τ) (N : Nat)
    (w : Walk σ α) : (finishPull d s N w).seq.mCreateCalls = s.mCreateCalls := rfl

theorem finishPull_direction (d : Decorated σ τ α) (s : StretchingSequence σ τ) (N : Nat)
    (w : Walk σ α) : (finishPull d s N w).seq.mPlaybackDirection = s.mPlaybackDirection := rfl

end Pull

/-! ## Segments that hold a run of frames keep the contracts -/

section Concatenation

variable {σ τ α : Type}

theorem Chunk.length_samples (chunk : Chunk α) (c : Nat) :
    (chunk.samples c).length = chunk.count := by
  simp [Chunk.samples]

theorem Chunk.getElem?_samples (chunk : Chunk α) (c j : Nat) (h : j < chunk.count) :
    (chunk.samples c)[j]? = some (chunk.data c j) := by
  simp [Chunk.samples, List.getElem?_range h]

theorem totalCount_append (l₁ l₂ : List (Chunk α)) :
    totalCount (l₁ ++ l₂) = totalCount l₁ + totalCount l₂ := by
  simp [totalCount]

theorem concatSamples_append (l₁ l₂ : List (Chunk α)) (c : Nat) :
    concatSamples (l₁ ++ l₂) c = concatSamples l₁ c ++ concatSamples l₂ c := by
  simp [concatSamples]

theorem length_concatSamples (l : List (Chunk α)) (c : Nat) :
    (concatSamples l c).length = totalCount l := by
  induction l with
  | nil => rfl
  | cons chunk l ih =>
    have h1 : concatSamples (chunk :: l) c = chunk.samples c ++ concatSamples l c := by
      simp [concatSamples]
    have h2 : totalCount (chunk :: l) = chunk.count + totalCount l := by
      simp [totalCount]
    rw [h1, h2, List.length_append, ih, Chunk.length_samples]

theorem concatSamples_singleton (chunk : Chunk α) (c : Nat) :
    concatSamples [chunk] c = chunk.samples c := by
  simp [concatSamples]

theorem totalCount_singleton (chunk : Chunk α) : totalCount [chunk] = chunk.count := by
  simp [totalCount]

theorem walkLoop_chunks (d : Decorated σ τ α) (N : Nat) :
    ∀ (fuel : Nat) (w w' : Walk σ α), walkLoop d N fuel w = some w' →
      ∃ l, w'.chunks = w.chunks ++ l := by
  intro fuel
  induction fuel with
  | zero =>
    intro w w' h
    by_cases hlt : w.numProcessedSamples < N
    · cases hact : w.active with
      | nil =>
        rw [walkLoop_end d N _ w hact] at h
        cases h
        exact ⟨[], by simp⟩
      | cons segment rest => rw [walkLoop_zero d N w segment rest hlt hact] at h; cases h
    · rw [walkLoop_done d N _ w hlt] at h
      cases h
      exact ⟨[], by simp⟩
  | succ fuel ih =>
    intro w w' h
    by_cases hlt : w.numProcessedSamples < N
    · cases hact : w.active with
      | nil =>
        rw [walkLoop_end d N _ w hact] at h
        cases h
        exact ⟨[], by simp⟩
      | cons segment rest =>
        rw [walkLoop_step d N _ w segment rest hlt hact] at h
        obtain ⟨l, hl⟩ := ih _ _ h
        rw [walkBody_chunks] at hl
        exact ⟨(d.segment.GetFloats segment (sizeSub N w.numProcessedSamples)).1 :: l,
          by rw [hl]; simp⟩
    · rw [walkLoop_done d N _ w hlt] at h
      cases h
      exact ⟨[], by simp⟩

/-- The loop ends only with the request met or with the iterator at the end of the list. -/
theorem walkLoop_exit (d : Decorated σ τ α) (N : Nat) :
    ∀ (fuel : Nat) (w w' : Walk σ α), walkLoop d N fuel w = some w' →
      w'.numProcessedSamples < N → w'.active = [] := by
  intro fuel
  induction fuel with
  | zero =>
    intro w w' h hlt'
    by_cases hlt : w.numProcessedSamples < N
    · cases hact : w.active with
      | nil =>
        rw [walkLoop_end d N _ w hact] at h
        cases h
        exact hact
      | cons segment rest => rw [walkLoop_zero d N w segment rest hlt hact] at h; cases h
    · rw [walkLoop_done d N _ w hlt] at h
      cases h
      exact absurd hlt' hlt
  | succ fuel ih =>
    intro w w' h hlt'
    by_cases hlt : w.numProcessedSamples < N
    · cases hact : w.active with
      | nil =>
        rw [walkLoop_end d N _ w hact] at h
        cases h
        exact hact
      | cons segment rest =>
        rw [walkLoop_step d N _ w segment rest hlt hact] at h
        exact ih _ _ h hlt'
    · rw [walkLoop_done d N _ w hlt] at h
      cases h
      exact absurd hlt' hlt

/-- One run of the loop body keeps the invariant as long as the new total is below `2 ^ 32`. -/
theorem walkBody_consistent (d : Decorated σ τ α) (N : Nat) (w : Walk σ α) (segment : σ)
    (rest : List σ) (hw : w.Consistent d.NChannels)
    (hfit : totalCount (walkBody d N w segment rest).chunks < 2 ^ 32) :
    (walkBody d N w segment rest).Consistent d.NChannels := by
  obtain ⟨hcount, hbuf⟩ := hw
  rw [walkBody_chunks, totalCount_append, totalCount_singleton] at hfit
  have hnum : (walkBody d N w segment rest).numProcessedSamples =
      w.numProcessedSamples +
        (d.segment.GetFloats segment (sizeSub N w.numProcessedSamples)).1.count := by
    rw [walkBody_numProcessedSamples]
    exact toUnsigned_of_lt (by omega)
  refine ⟨?_, ?_⟩
  · rw [hnum, walkBody_chunks, totalCount_append, totalCount_singleton, hcount]
  · intro c hc i hi
    rw [hnum] at hi
    rw [walkBody_chunks, concatSamples_append, concatSamples_singleton, walkBody_buffers]
    have hlen : (concatSamples w.chunks c).length = w.numProcessedSamples := by
      rw [length_concatSamples, hcount]
    by_cases hlo : i < w.numProcessedSamples
    · rw [List.getElem?_append_left (by omega), hbuf c hc i hlo]
      have hstore : (GetOffsetBuffer d.NChannels w.numProcessedSamples).store w.buffers
          (d.segment.GetFloats segment (sizeSub N w.numProcessedSamples)).1 c i =
          w.buffers c i := by
        show (if c < d.NChannels ∧ w.numProcessedSamples ≤ i ∧ i < w.numProcessedSamples +
            (d.segment.GetFloats segment (sizeSub N w.numProcessedSamples)).1.count
          then _ else w.buffers c i) = w.buffers c i
        rw [if_neg (by omega)]
      rw [hstore]
    · rw [List.getElem?_append_right (by omega), hlen,
        Chunk.getElem?_samples _ c _ (by omega)]
      have hstore : (GetOffsetBuffer d.NChannels w.numProcessedSamples).store w.buffers
          (d.segment.GetFloats segment (sizeSub N w.numProcessedSamples)).1 c i =
          (d.segment.GetFloats segment (sizeSub N w.numProcessedSamples)).1.data c
            (i - w.numProcessedSamples) := by
        show (if c < d.NChannels ∧ w.numProcessedSamples ≤ i ∧ i < w.numProcessedSamples +
            (d.segment.GetFloats segment (sizeSub N w.numProcessedSamples)).1.count
          then (d.segment.GetFloats segment (sizeSub N w.numProcessedSamples)).1.data c
            (i - w.numProcessedSamples) else w.buffers c i) = _
        rw [if_pos ⟨hc, by omega, by omega⟩]
      rw [hstore]

/-- The loop keeps the invariant as long as the final total is below `2 ^ 32`. -/
theorem walkLoop_consistent (d : Decorated σ τ α) (N : Nat) :
    ∀ (fuel : Nat) (w w' : Walk σ α), w.Consistent d.NChannels →
      walkLoop d N fuel w = some w' → totalCount w'.chunks < 2 ^ 32 →
      w'.Consistent d.NChannels := by
  intro fuel
  induction fuel with
  | zero =>
    intro w w' hw h _
    by_cases hlt : w.numProcessedSamples < N
    · cases hact : w.active with
      | nil =>
        rw [walkLoop_end d N _ w hact] at h
        cases h
        exact hw
      | cons segment rest => rw [walkLoop_zero d N w segment rest hlt hact] at h; cases h
    · rw [walkLoop_done d N _ w hlt] at h
      cases h
      exact hw
  | succ fuel ih =>
    intro w w' hw h hfit
    by_cases hlt : w.numProcessedSamples < N
    · cases hact : w.active with
      | nil =>
        rw [walkLoop_end d N _ w hact] at h
        cases h
        exact hw
      | cons segment rest =>
        rw [walkLoop_step d N _ w segment rest hlt hact] at h
        obtain ⟨l, hl⟩ := walkLoop_chunks d N _ _ _ h
        refine ih _ _ (walkBody_consistent d N w segment rest hw ?_) h hfit
        have := totalCount_append (walkBody d N w segment rest).chunks l
        rw [← hl] at this
        omega
    · rw [walkLoop_done d N _ w hlt] at h
      cases h
      exact hw

/-- With segments that never return more than requested and a request below `2 ^ 32`, the
counter never wraps: it stays equal to the total returned, which stays at most the request. -/
theorem walkLoop_total_le (d : Decorated σ τ α) (hreq : d.segment.AtMostRequested) (N : Nat)
    (hN : N < 2 ^ 32) :
    ∀ (fuel : Nat) (w w' : Walk σ α), w.numProcessedSamples = totalCount w.chunks →
      w.numProcessedSamples ≤ N → walkLoop d N fuel w = some w' →
      totalCount w'.chunks ≤ N := by
  intro fuel
  induction fuel with
  | zero =>
    intro w w' hc hle h
    by_cases hlt : w.numProcessedSamples < N
    · cases hact : w.active with
      | nil =>
        rw [walkLoop_end d N _ w hact] at h
        cases h
        omega
      | cons segment rest => rw [walkLoop_zero d N w segment rest hlt hact] at h; cases h
    · rw [walkLoop_done d N _ w hlt] at h
      cases h
      omega
  | succ fuel ih =>
    intro w w' hc hle h
    by_cases hlt : w.numProcessedSamples < N
    · cases hact : w.active with
      | nil =>
        rw [walkLoop_end d N _ w hact] at h
        cases h
        omega
      | cons segment rest =>
        rw [walkLoop_step d N _ w segment rest hlt hact] at h
        have hN64 : N < 2 ^ 64 := lt_trans hN (by norm_num)
        have hsub : sizeSub N w.numProcessedSamples = N - w.numProcessedSamples :=
          sizeSub_of_le hle hN64
        have hk := hreq segment (N - w.numProcessedSamples)
        have hnum : (walkBody d N w segment rest).numProcessedSamples =
            w.numProcessedSamples +
              (d.segment.GetFloats segment (N - w.numProcessedSamples)).1.count := by
          rw [walkBody_numProcessedSamples, hsub]
          exact toUnsigned_of_lt (by omega)
        refine ih _ _ ?_ (by omega) h
        rw [hnum, walkBody_chunks, totalCount_append, totalCount_singleton, hsub, hc]
    · rw [walkLoop_done d N _ w hlt] at h
      cases h
      omega

/-- The buffers after a pull whose segments returned fewer than `2 ^ 32` samples in total
(`p = totalCount r.chunks`): every channel holds at `[0, p)` the returned samples concatenated
in call order, zeros at `[p, N)`, and `p < N` only with the iterator at the end of the list. -/
theorem GetNext_concatenation [Zero α] (d : Decorated σ τ α) (s : StretchingSequence σ τ)
    (buffers : Buffers α) (numChannels N fuel : Nat) (r : Pulled σ τ α)
    (h : GetNext d fuel s buffers numChannels N = some r) (hN : N < 2 ^ 64)
    (hfit : totalCount r.chunks < 2 ^ 32) :
    (∀ c, c < d.NChannels → ∀ i, i < totalCount r.chunks →
      (concatSamples r.chunks c)[i]? = some (r.buffers c i)) ∧
    (∀ c, c < d.NChannels → ∀ i, totalCount r.chunks ≤ i → i < N → r.buffers c i = 0) ∧
    (totalCount r.chunks < N → r.seq.mActive = []) := by
  obtain ⟨w, hw, rfl⟩ := GetNext_eq_some d fuel s buffers numChannels N r h
  have hfit' : totalCount w.chunks < 2 ^ 32 := hfit
  have hcons : w.Consistent d.NChannels :=
    walkLoop_consistent d N fuel _ w ⟨rfl, fun c _ i hi => absurd hi (Nat.not_lt_zero i)⟩
      hw hfit'
  obtain ⟨hcount, hbuf⟩ := hcons
  have hexit := walkLoop_exit d N fuel _ w hw
  have hchunks : (finishPull d (cursorForWalk d s) N w).chunks = w.chunks := rfl
  have hactive : (finishPull d (cursorForWalk d s) N w).seq.mActive = w.active := rfl
  have hbuffers : ∀ c i, (finishPull d (cursorForWalk d s) N w).buffers c i =
      if 0 < sizeSub N w.numProcessedSamples then
        (if c < d.NChannels ∧ w.numProcessedSamples ≤ i ∧
            i < w.numProcessedSamples + sizeSub N w.numProcessedSamples
          then 0 else w.buffers c i)
      else w.buffers c i := by
    intro c i
    simp only [finishPull]
    split <;> rfl
  rw [hchunks, hactive, ← hcount]
  refine ⟨?_, ?_, hexit⟩
  · intro c hc i hi
    rw [hbuf c hc i hi, hbuffers]
    split
    · rw [if_neg (by omega)]
    · rfl
  · intro c hc i hlo hhi
    have hsub : sizeSub N w.numProcessedSamples = N - w.numProcessedSamples :=
      sizeSub_of_le (by omega) hN
    rw [hbuffers, hsub, if_pos (by omega), if_pos ⟨hc, hlo, by omega⟩]

/-- With segments that never return more than requested and a request below `2 ^ 32`, the
segments of a pull return at most the request in total. -/
theorem GetNext_total_le [Zero α] (d : Decorated σ τ α) (hreq : d.segment.AtMostRequested)
    (s : StretchingSequence σ τ) (buffers : Buffers α) (numChannels N fuel : Nat)
    (r : Pulled σ τ α) (h : GetNext d fuel s buffers numChannels N = some r)
    (hN : N < 2 ^ 32) : totalCount r.chunks ≤ N := by
  obtain ⟨w, hw, rfl⟩ := GetNext_eq_some d fuel s buffers numChannels N r h
  exact walkLoop_total_le d hreq N hN fuel _ w rfl (Nat.zero_le N) hw

end Concatenation

section Get

variable {σ τ α : Type} [Zero α]

omit [Zero α] in
theorem mustSeek_iff (s : StretchingSequence σ τ) (start : sampleCount) (backwards : Bool) :
    mustSeek s start backwards = true ↔
      (s.mExpectedStart = none ∨ s.mExpectedStart ≠ some start ∨
        s.mPlaybackDirection ≠ directionOf backwards) := by
  unfold mustSeek directionOf
  cases hs : s.mExpectedStart <;> cases hd : s.mPlaybackDirection <;> cases backwards <;> simp

/-- The cursor that `MutableGet` hands to `GetNext`. -/
theorem MutableGet_eq (d : Decorated σ τ α) (fuel : Nat) (s : StretchingSequence σ τ)
    (nBuffers : Nat) (buffers : Buffers α) (start : sampleCount) (len : Nat) (backwards : Bool) :
    MutableGet d fuel s 0 nBuffers buffers start len backwards =
      (GetNext d fuel
        (if s.mExpectedStart = none ∨ s.mExpectedStart ≠ some start ∨
            s.mPlaybackDirection ≠ directionOf backwards
          then ResetCursor d s (d.sampleTime start) (directionOf backwards) else s)
        buffers nBuffers len).map Outcome.returned := by
  unfold MutableGet
  rw [if_neg (by simp)]
  by_cases h : mustSeek s start backwards = true
  · simp only [h, if_true, if_pos ((mustSeek_iff s start backwards).mp h)]
  · simp only [h, if_neg (fun hc => h ((mustSeek_iff s start backwards).mpr hc))]
    rfl

/-- A returned `MutableGet` that had to seek: the walk ran over the list made by the factory,
from its first segment. -/
theorem MutableGet_returned_seek (d : Decorated σ τ α) (fuel : Nat) (s : StretchingSequence σ τ)
    (nBuffers : Nat) (buffers : Buffers α) (start : sampleCount) (len : Nat) (backwards : Bool)
    (r : Pulled σ τ α)
    (hseek : s.mExpectedStart = none ∨ s.mExpectedStart ≠ some start ∨
        s.mPlaybackDirection ≠ directionOf backwards)
    (h : MutableGet d fuel s 0 nBuffers buffers start len backwards = some (Outcome.returned r)) :
    ∃ w, walkLoop d len fuel
        { passed := [],
          active := d.CreateAudioSegmentSequence (d.sampleTime start) (directionOf backwards),
          numProcessedSamples := 0, buffers := buffers, chunks := [] } = some w ∧
      r = finishPull d (ResetCursor d s (d.sampleTime start) (directionOf backwards)) len w := by
  rw [MutableGet_eq, if_pos hseek] at h
  simp only [Option.map_eq_some'] at h
  obtain ⟨r', hr', hrr⟩ := h
  cases hrr
  obtain ⟨w, hw, rfl⟩ := GetNext_eq_some d fuel _ buffers nBuffers len r hr'
  rw [cursorForWalk_of_some d _ (d.TimeToLongSamples (d.sampleTime start)) rfl] at hw ⊢
  exact ⟨w, hw, rfl⟩

/-- A returned `MutableGet` that did not seek: the walk went on from the cursor as it was. -/
theorem MutableGet_returned_continue (d : Decorated σ τ α) (fuel : Nat)
    (s : StretchingSequence σ τ) (nBuffers : Nat) (buffers : Buffers α) (start : sampleCount)
    (len : Nat) (backwards : Bool) (r : Pulled σ τ α)
    (hcont : ¬ (s.mExpectedStart = none ∨ s.mExpectedStart ≠ some start ∨
        s.mPlaybackDirection ≠ directionOf backwards))
    (h : MutableGet d fuel s 0 nBuffers buffers start len backwards = some (Outcome.returned r)) :
    ∃ w, walkLoop d len fuel
        { passed := s.mPassed, active := s.mActive,
          numProcessedSamples := 0, buffers := buffers, chunks := [] } = some w ∧
      r = finishPull d s len w := by
  rw [MutableGet_eq, if_neg hcont] at h
  simp only [Option.map_eq_some'] at h
  obtain ⟨r', hr', hrr⟩ := h
  cases hrr
  obtain ⟨w, hw, rfl⟩ := GetNext_eq_some d fuel _ buffers nBuffers len r hr'
  have hs : s.mExpectedStart = some start := by
    by_contra hne
    exact hcont (Or.inr (Or.inl hne))
  rw [cursorForWalk_of_some d s start hs] at hw ⊢
  exact ⟨w, hw, rfl⟩

/-- C3.  `Get` (channel index 0) calls the segment factory exactly when the cursor is
uninitialized, or the stored expected-next position differs from `start`, or the stored direction
differs from the requested one.  When it does, the factory is asked for time `start / rate`
(`sampleTime start`) and the requested direction, and the pull then walks the new list from its
first segment, with the requested direction stored; when it does not, the pull walks on from the
segment list, active segment and direction that the cursor holds.  The record of factory calls
of a returned `Get` grows by that one call in the first case and is unchanged in the second. -/
theorem Get_rebuilds_iff (d : Decorated σ τ α) (s : StretchingSequence σ τ) (nBuffers : Nat)
    (buffers : Buffers α) (start : sampleCount) (len : Nat) (backwards : Bool) (fuel : Nat) :
    ((s.mExpectedStart = none ∨ s.mExpectedStart ≠ some start ∨
          s.mPlaybackDirection ≠ directionOf backwards) →
        Get d fuel s 0 nBuffers buffers start len backwards =
          (GetNext d fuel
            { mPassed := []
              mActive := d.CreateAudioSegmentSequence (d.sampleTime start) (directionOf backwards)
              mExpectedStart := some (d.TimeToLongSamples (d.sampleTime start))
              mPlaybackDirection := directionOf backwards
              mCreateCalls := s.mCreateCalls ++ [(d.sampleTime start, directionOf backwards)] }
            buffers nBuffers len).map Outcome.returned) ∧
    (¬ (s.mExpectedStart = none ∨ s.mExpectedStart ≠ some start ∨
          s.mPlaybackDirection ≠ directionOf backwards) →
        Get d fuel s 0 nBuffers buffers start len backwards =
          (GetNext d fuel s buffers nBuffers len).map Outcome.returned) ∧
    (∀ r, Get d fuel s 0 nBuffers buffers start len backwards = some (Outcome.returned r) →
      (r.seq.mCreateCalls = s.mCreateCalls ++ [(d.sampleTime start, directionOf backwards)] ↔
        (s.mExpectedStart = none ∨ s.mExpectedStart ≠ some start ∨
          s.mPlaybackDirection ≠ directionOf backwards)) ∧
      (r.seq.mCreateCalls = s.mCreateCalls ↔
        ¬ (s.mExpectedStart = none ∨ s.mExpectedStart ≠ some start ∨
          s.mPlaybackDirection ≠ directionOf backwards)) ∧
      r.seq.mPlaybackDirection = directionOf backwards) := by
  refine ⟨?_, ?_, ?_⟩
  · intro hseek
    unfold Get
    rw [MutableGet_eq, if_pos hseek]
    rfl
  · intro hcont
    unfold Get
    rw [MutableGet_eq, if_neg hcont]
  · intro r h
    unfold Get at h
    by_cases hseek : s.mExpectedStart = none ∨ s.mExpectedStart ≠ some start ∨
        s.mPlaybackDirection ≠ directionOf backwards
    · obtain ⟨w, _, rfl⟩ :=
        MutableGet_returned_seek d fuel s nBuffers buffers start len backwards r hseek h
      rw [finishPull_createCalls, finishPull_direction]
      refine ⟨⟨fun _ => hseek, fun _ => rfl⟩, ⟨fun hc => ?_, fun hn => absurd hseek hn⟩, rfl⟩
      have hlen := congrArg List.length hc
      simp [ResetCursor] at hlen
    · obtain ⟨w, _, rfl⟩ :=
        MutableGet_returned_continue d fuel s nBuffers buffers start len backwards r hseek h
      rw [finishPull_createCalls, finishPull_direction]
      refine ⟨⟨fun hc => ?_, fun hs => absurd hs hseek⟩, ⟨fun _ => hseek, fun _ => rfl⟩, ?_⟩
      · have hlen := congrArg List.length hc
        simp at hlen
      · by_contra hne
        exact hseek (Or.inr (Or.inr hne))

/-- C9.  A `Get` with a channel index other than 0 ends in the failed assertion, for every fuel,
with the decorator and the buffers exactly as they were passed in (nothing has been changed
yet); it is not a returned value, and every returned value is `true`.  A `Get` with channel
index 0 never ends in the failed assertion.  `GetFloats` is `Get` with channel index 0 and
`nBuffers = NChannels()`, so it never ends in the failed assertion either. -/
theorem Get_channel_assertion (d : Decorated σ τ α) (s : StretchingSequence σ τ)
    (nBuffers : Nat) (buffers : Buffers α) (start : sampleCount) (len : Nat) (backwards : Bool)
    (fuel : Nat) :
    (∀ iChannel, iChannel ≠ 0 →
      Get d fuel s iChannel nBuffers buffers start len backwards =
        some (Outcome.assertionFailure s buffers)) ∧
    (∀ iChannel r, Get d fuel s iChannel nBuffers buffers start len backwards =
        some (Outcome.returned r) → iChannel = 0 ∧ r.result = true) ∧
    (∀ s' b', Get d fuel s 0 nBuffers buffers start len backwards ≠
        some (Outcome.assertionFailure s' b')) ∧
    GetFloats d fuel s buffers start len backwards =
      Get d fuel s 0 d.NChannels buffers start len backwards ∧
    (∀ s' b', GetFloats d fuel s buffers start len backwards ≠
        some (Outcome.assertionFailure s' b')) := by
  have h0 : ∀ n s' b', Get d fuel s 0 n buffers start len backwards ≠
      some (Outcome.assertionFailure s' b') := by
    intro n s' b' h
    unfold Get at h
    rw [MutableGet_eq] at h
    simp only [Option.map_eq_some'] at h
    obtain ⟨_, _, hr⟩ := h
    cases hr
  refine ⟨?_, ?_, h0 nBuffers, rfl, h0 d.NChannels⟩
  · intro iChannel hi
    unfold Get MutableGet
    rw [if_pos hi]
  · intro iChannel r h
    by_cases hi : iChannel = 0
    · subst hi
      refine ⟨rfl, ?_⟩
      unfold Get at h
      rw [MutableGet_eq] at h
      simp only [Option.map_eq_some'] at h
      obtain ⟨r', hr', hrr⟩ := h
      cases hrr
      obtain ⟨w, _, rfl⟩ := GetNext_eq_some d fuel _ buffers nBuffers len r hr'
      rfl
    · unfold Get MutableGet at h
      rw [if_pos hi] at h
      cases h

end Get

/-- An instance of `Get_rebuilds_iff`: the first `Get` on a fresh decorator over the two-clip
track finds the cursor uninitialized, returns, and has asked the factory once, for time 0 and
direction forward. -/
theorem Get_rebuilds_iff_witness :
    ∃ r, Get (twoClipTrack (11 : Int) 12 13 14) 20 (StretchingSequence.init _ _) 0 1
        (constBuffers 99) 0 10 false = some (Outcome.returned r) ∧
      r.seq.mCreateCalls = [((0 : Int), PlaybackDirection.forward)] :=
  ⟨_, rfl,
    ((Get_rebuilds_iff (twoClipTrack (11 : Int) 12 13 14) (StretchingSequence.init _ _) 1
      (constBuffers 99) 0 10 false 20).2.2 _ rfl).1.mpr (Or.inl rfl)⟩

/-- An instance of `Get_channel_assertion`: a `Get` for channel 1 ends in the failed assertion,
and the same `Get` for channel 0 returns `true`. -/
theorem Get_channel_assertion_witness :
    Get (twoClipTrack (11 : Int) 12 13 14) 20 (StretchingSequence.init _ _) 1 1
        (constBuffers 99) 0 10 false =
      some (Outcome.assertionFailure (StretchingSequence.init _ _) (constBuffers 99)) ∧
    ∃ r, Get (twoClipTrack (11 : Int) 12 13 14) 20 (StretchingSequence.init _ _) 0 1
        (constBuffers 99) 0 10 false = some (Outcome.returned r) ∧ r.result = true :=
  ⟨(Get_channel_assertion (twoClipTrack (11 : Int) 12 13 14) (StretchingSequence.init _ _) 1
      (constBuffers 99) 0 10 false 20).1 1 (by decide),
    _, rfl,
    ((Get_channel_assertion (twoClipTrack (11 : Int) 12 13 14) (StretchingSequence.init _ _) 1
      (constBuffers 99) 0 10 false 20).2.1 0 _ rfl).2⟩

/-! ## More fuel changes nothing -/

section Fuel

variable {σ τ α : Type} [Zero α]

theorem GetNext_fuel_mono (d : Decorated σ τ α) (s : StretchingSequence σ τ)
    (buffers : Buffers α) (numChannels N fuel fuel' : Nat) (r : Pulled σ τ α)
    (h : GetNext d fuel s buffers numChannels N = some r) (hle : fuel ≤ fuel') :
    GetNext d fuel' s buffers numChannels N = some r := by
  obtain ⟨w, hw, rfl⟩ := GetNext_eq_some d fuel s buffers numChannels N r h
  have hw' := walkLoop_fuel_mono d N fuel _ w hw fuel' hle
  simp only [GetNext, hw', Option.map_some']

theorem Get_fuel_mono (d : Decorated σ τ α) (s : StretchingSequence σ τ) (iChannel nBuffers : Nat)
    (buffers : Buffers α) (start : sampleCount) (len : Nat) (backwards : Bool)
    (fuel fuel' : Nat) (o : Outcome σ τ α)
    (h : Get d fuel s iChannel nBuffers buffers start len backwards = some o)
    (hle : fuel ≤ fuel') :
    Get d fuel' s iChannel nBuffers buffers start len backwards = some o := by
  unfold Get MutableGet at h ⊢
  by_cases hi : iChannel ≠ 0
  · rw [if_pos hi] at h ⊢
    exact h
  · rw [if_neg hi] at h ⊢
    simp only [Option.map_eq_some'] at h ⊢
    obtain ⟨r, hr, ho⟩ := h
    exact ⟨r, GetNext_fuel_mono d _ buffers nBuffers len fuel fuel' r hr hle, ho⟩

end Fuel

/-! ## Pulls over run segments -/

section Runs

variable {τ α : Type} [Zero α]

theorem frameSample_append_left (l₁ l₂ : List (Nat → α)) (c i : Nat) (h : i < l₁.length) :
    frameSample (l₁ ++ l₂) c i = frameSample l₁ c i := by
  unfold frameSample
  rw [List.getElem?_append_left h]

theorem frameSample_append_right (l₁ l₂ : List (Nat → α)) (c i : Nat) (h : l₁.length ≤ i) :
    frameSample (l₁ ++ l₂) c i = frameSample l₂ c (i - l₁.length) := by
  unfold frameSample
  rw [List.getElem?_append_right h]

theorem frameSample_of_le (l : List (Nat → α)) (c i : Nat) (h : l.length ≤ i) :
    frameSample l c i = 0 := by
  unfold frameSample
  rw [List.getElem?_eq_none h]

theorem frameSample_drop (l : List (Nat → α)) (c i n : Nat) :
    frameSample (l.drop n) c i = frameSample l c (n + i) := by
  unfold frameSample
  rw [List.getElem?_drop]

omit [Zero α] in
theorem framesOf_cons (segment : List (Nat → α)) (rest : List (List (Nat → α))) :
    framesOf (segment :: rest) = segment ++ framesOf rest := by
  simp [framesOf]

omit [Zero α] in
theorem advanceRuns_zero (passed active : List (List (Nat → α))) :
    advanceRuns 0 passed active = (passed, active) := by
  cases active with
  | nil => rfl
  | cons segment rest => simp [advanceRuns]

/-- The segment walk over run segments, for a request below `2 ^ 32`: it ends within as many
runs of its body as there are segments left, and its result is given in closed form. -/
theorem walkLoop_runs (d : Decorated (List (Nat → α)) τ α) (hseg : d.segment = runSegment α)
    (N : Nat) (hN : N < 2 ^ 32) :
    ∀ (active : List (List (Nat → α))) (w : Walk (List (Nat → α)) α), w.active = active →
      w.numProcessedSamples ≤ N →
      ∃ w', walkLoop d N active.length w = some w' ∧
        (w'.passed, w'.active) = advanceRuns (N - w.numProcessedSamples) w.passed active ∧
        w'.numProcessedSamples =
          w.numProcessedSamples + min (N - w.numProcessedSamples) (framesOf active).length ∧
        ∀ c i, w'.buffers c i =
          if c < d.NChannels ∧ w.numProcessedSamples ≤ i ∧
              i < w.numProcessedSamples + min (N - w.numProcessedSamples) (framesOf active).length
          then frameSample (framesOf active) c (i - w.numProcessedSamples)
          else w.buffers c i := by
  intro active
  induction active with
  | nil =>
    intro w hact _
    refine ⟨w, walkLoop_end d N _ w hact, ?_, ?_, ?_⟩
    · rw [hact]; rfl
    · simp [framesOf]
    · intro c i
      rw [if_neg]
      simp [framesOf]
  | cons segment rest ih =>
    intro w hact hle
    by_cases hlt : w.numProcessedSamples < N
    · have hN64 : N < 2 ^ 64 := lt_trans hN (by norm_num)
      have hsub : sizeSub N w.numProcessedSamples = N - w.numProcessedSamples :=
        sizeSub_of_le hle hN64
      have hcount : (d.segment.GetFloats segment (sizeSub N w.numProcessedSamples)).1.count =
          min (N - w.numProcessedSamples) segment.length := by rw [hseg, hsub]; rfl
      have hdata : ∀ c j,
          (d.segment.GetFloats segment (sizeSub N w.numProcessedSamples)).1.data c j =
            frameSample segment c j := by
        intro c j; rw [hseg]; rfl
      have hnext : (d.segment.GetFloats segment (sizeSub N w.numProcessedSamples)).2 =
          segment.drop (min (N - w.numProcessedSamples) segment.length) := by
        rw [hseg, hsub]; rfl
      have hempty : ∀ l, d.segment.Empty l = l.isEmpty := by
        intro l; rw [hseg]; rfl
      have hnum : (walkBody d N w segment rest).numProcessedSamples =
          w.numProcessedSamples + min (N - w.numProcessedSamples) segment.length := by
        rw [walkBody_numProcessedSamples, hcount]
        exact toUnsigned_of_lt (by omega)
      have hbuf : ∀ c i, (walkBody d N w segment rest).buffers c i =
          if c < d.NChannels ∧ w.numProcessedSamples ≤ i ∧
              i < w.numProcessedSamples + min (N - w.numProcessedSamples) segment.length
          then frameSample segment c (i - w.numProcessedSamples) else w.buffers c i := by
        intro c i
        rw [walkBody_buffers]
        show (if c < d.NChannels ∧ w.numProcessedSamples ≤ i ∧ i < w.numProcessedSamples +
            (d.segment.GetFloats segment (sizeSub N w.numProcessedSamples)).1.count
          then (d.segment.GetFloats segment (sizeSub N w.numProcessedSamples)).1.data c
            (i - w.numProcessedSamples) else w.buffers c i) = _
        rw [hcount, hdata]
      rw [List.length_cons, walkLoop_step d N _ w segment rest hlt hact]
      have hm0 : N - w.numProcessedSamples ≠ 0 := by omega
      by_cases hfit : segment.length ≤ N - w.numProcessedSamples
      · -- the segment is exhausted by this call
        have hmin : min (N - w.numProcessedSamples) segment.length = segment.length := by omega
        have hdrop : segment.drop (min (N - w.numProcessedSamples) segment.length) = [] := by
          rw [hmin]; exact List.drop_length segment
        have hact' : (walkBody d N w segment rest).active = rest := by
          rw [walkBody_active, hnext, hdrop, hempty]; rfl
        have hpassed' : (walkBody d N w segment rest).passed = w.passed ++ [[]] := by
          show (if d.segment.Empty (d.segment.GetFloats segment
              (sizeSub N w.numProcessedSamples)).2 then w.passed ++
              [(d.segment.GetFloats segment (sizeSub N w.numProcessedSamples)).2]
            else w.passed) = _
          rw [hnext, hdrop, hempty]; rfl
        rw [hmin] at hnum
        obtain ⟨w', hw', hz, hp, hb⟩ := ih (walkBody d N w segment rest) hact' (by omega)
        refine ⟨w', hw', ?_, ?_, ?_⟩
        · rw [hz, hpassed', hnum]
          have : advanceRuns (N - w.numProcessedSamples) w.passed (segment :: rest) =
              advanceRuns (N - w.numProcessedSamples - segment.length) (w.passed ++ [[]])
                rest := by
            rw [advanceRuns, if_neg hm0, if_pos hfit]
          rw [this]
          congr 1
          omega
        · rw [hp, hnum, framesOf_cons, List.length_append]
          omega
        · intro c i
          rw [hb, hnum, hbuf, hmin, framesOf_cons, List.length_append]
          by_cases hc : c < d.NChannels
          · by_cases h1 : i < w.numProcessedSamples + segment.length
            · rw [if_neg (by omega)]
              by_cases h2 : w.numProcessedSamples ≤ i
              · rw [if_pos ⟨hc, h2, h1⟩, if_pos ⟨hc, h2, by omega⟩,
                  frameSample_append_left _ _ _ _ (by omega)]
              · rw [if_neg (by omega), if_neg (by omega)]
            · by_cases h3 : i < w.numProcessedSamples + segment.length +
                  min (N - (w.numProcessedSamples + segment.length)) (framesOf rest).length
              · rw [if_pos ⟨hc, by omega, h3⟩, if_pos ⟨hc, by omega, by omega⟩,
                  frameSample_append_right _ _ _ _ (by omega)]
                congr 1
                omega
              · rw [if_neg (by omega), if_neg (by omega), if_neg (by omega)]
          · rw [if_neg (by tauto), if_neg (by tauto), if_neg (by tauto)]
      · -- the request ends inside the segment
        have hmin : min (N - w.numProcessedSamples) segment.length =
            N - w.numProcessedSamples := by omega
        have hne : segment.drop (N - w.numProcessedSamples) ≠ [] := by
          intro h0
          have := congrArg List.length h0
          simp at this
          omega
        have hemp : d.segment.Empty (segment.drop (N - w.numProcessedSamples)) = false := by
          rw [hempty]
          cases hd : segment.drop (N - w.numProcessedSamples) with
          | nil => exact absurd hd hne
          | cons _ _ => rfl
        have hact' : (walkBody d N w segment rest).active =
            segment.drop (N - w.numProcessedSamples) :: rest := by
          rw [walkBody_active, hnext, hmin, hemp]; rfl
        have hpassed' : (walkBody d N w segment rest).passed = w.passed := by
          show (if d.segment.Empty (d.segment.GetFloats segment
              (sizeSub N w.numProcessedSamples)).2 then w.passed ++
              [(d.segment.GetFloats segment (sizeSub N w.numProcessedSamples)).2]
            else w.passed) = _
          rw [hnext, hmin, hemp]; rfl
        rw [hmin] at hnum
        refine ⟨walkBody d N w segment rest,
          walkLoop_done d N _ _ (by rw [hnum]; omega), ?_, ?_, ?_⟩
        · rw [hpassed', hact', advanceRuns, if_neg hm0, if_neg hfit]
        · rw [hnum, framesOf_cons, List.length_append]
          omega
        · intro c i
          rw [hbuf, hmin, framesOf_cons, List.length_append]
          have hmin' : min (N - w.numProcessedSamples) (segment.length + (framesOf rest).length)
              = N - w.numProcessedSamples := by omega
          rw [hmin']
          by_cases hcond : c < d.NChannels ∧ w.numProcessedSamples ≤ i ∧
              i < w.numProcessedSamples + (N - w.numProcessedSamples)
          · rw [if_pos hcond, if_pos hcond, frameSample_append_left _ _ _ _ (by omega)]
          · rw [if_neg hcond, if_neg hcond]
    · have hp : w.numProcessedSamples = N := by omega
      refine ⟨w, walkLoop_done d N _ w hlt, ?_, ?_, ?_⟩
      · rw [hp, Nat.sub_self, advanceRuns_zero, hact]
      · rw [hp]; simp
      · intro c i
        rw [if_neg]
        rw [hp]; simp

omit [Zero α] in
theorem advanceRuns_add :
    ∀ (active passed : List (List (Nat → α))) (A B : Nat),
      advanceRuns B (advanceRuns A passed active).1 (advanceRuns A passed active).2 =
        advanceRuns (A + B) passed active := by
  intro active
  induction active with
  | nil =>
    intro passed A B
    rfl
  | cons segment rest ih =>
    intro passed A B
    by_cases hA : A = 0
    · subst hA
      rw [advanceRuns_zero, Nat.zero_add]
    · by_cases hfit : segment.length ≤ A
      · have h1 : advanceRuns A passed (segment :: rest) =
            advanceRuns (A - segment.length) (passed ++ [[]]) rest := by
          rw [advanceRuns, if_neg hA, if_pos hfit]
        have h2 : advanceRuns (A + B) passed (segment :: rest) =
            advanceRuns (A + B - segment.length) (passed ++ [[]]) rest := by
          rw [advanceRuns, if_neg (by omega), if_pos (by omega)]
        rw [h1, h2, ih]
        congr 1
        omega
      · have h1 : advanceRuns A passed (segment :: rest) =
            (passed, segment.drop A :: rest) := by
          rw [advanceRuns, if_neg hA, if_neg hfit]
        rw [h1]
        by_cases hB : B = 0
        · subst hB
          rw [advanceRuns_zero, Nat.add_zero, h1]
        · show advanceRuns B passed (segment.drop A :: rest) = _
          by_cases hfit' : segment.length ≤ A + B
          · rw [advanceRuns, if_neg hB, if_pos (by rw [List.length_drop]; omega)]
            rw [advanceRuns, if_neg (by omega), if_pos hfit', List.length_drop]
            congr 1
            omega
          · rw [advanceRuns, if_neg hB, if_neg (by rw [List.length_drop]; omega)]
            rw [advanceRuns, if_neg (by omega), if_neg hfit', List.drop_drop, Nat.add_comm]

omit [Zero α] in
theorem framesOf_advanceRuns :
    ∀ (active passed : List (List (Nat → α))) (A : Nat),
      framesOf (advanceRuns A passed active).2 = (framesOf active).drop A := by
  intro active
  induction active with
  | nil =>
    intro passed A
    simp [advanceRuns, framesOf]
  | cons segment rest ih =>
    intro passed A
    by_cases hA : A = 0
    · subst hA
      rw [advanceRuns_zero]
      rfl
    · by_cases hfit : segment.length ≤ A
      · rw [advanceRuns, if_neg hA, if_pos hfit, ih, framesOf_cons,
          List.drop_append_eq_append_drop, List.drop_eq_nil_of_le hfit, List.nil_append]
      · rw [advanceRuns, if_neg hA, if_neg hfit, framesOf_cons, framesOf_cons,
          List.drop_append_eq_append_drop]
        have h0 : A - segment.length = 0 := by omega
        rw [h0, List.drop_zero]

omit [Zero α] in
theorem length_advanceRuns :
    ∀ (active passed : List (List (Nat → α))) (A : Nat),
      (advanceRuns A passed active).2.length ≤ active.length := by
  intro active
  induction active with
  | nil =>
    intro passed A
    simp [advanceRuns]
  | cons segment rest ih =>
    intro passed A
    by_cases hA : A = 0
    · subst hA
      rw [advanceRuns_zero]
    · by_cases hfit : segment.length ≤ A
      · rw [advanceRuns, if_neg hA, if_pos hfit, List.length_cons]
        exact Nat.le_succ_of_le (ih _ _)
      · rw [advanceRuns, if_neg hA, if_neg hfit]
        simp

/-- A pull over run segments from an initialized cursor, for a request below `2 ^ 32`, in
closed form: it returns with any fuel from the number of segments left on; the buffers hold the
remaining frames in order and zeros after them, up to the request. -/
theorem GetNext_runs (d : Decorated (List (Nat → α)) τ α) (hseg : d.segment = runSegment α)
    (s : StretchingSequence (List (Nat → α)) τ) (e : sampleCount)
    (hs : s.mExpectedStart = some e) (buffers : Buffers α) (numChannels N : Nat)
    (hN : N < 2 ^ 32) (fuel : Nat) (hfuel : s.mActive.length ≤ fuel) :
    ∃ r, GetNext d fuel s buffers numChannels N = some r ∧
      r.seq =
        { mPassed := (advanceRuns N s.mPassed s.mActive).1
          mActive := (advanceRuns N s.mPassed s.mActive).2
          mExpectedStart :=
            some (if s.mPlaybackDirection = PlaybackDirection.forward then e + (N : Int)
                  else e - (N : Int))
          mPlaybackDirection := s.mPlaybackDirection
          mCreateCalls := s.mCreateCalls } ∧
      ∀ c i, r.buffers c i =
        if c < d.NChannels ∧ i < N then frameSample (framesOf s.mActive) c i
        else buffers c i := by
  obtain ⟨w', hw', hz, hp, hb⟩ := walkLoop_runs d hseg N hN s.mActive
    { passed := s.mPassed, active := s.mActive, numProcessedSamples := 0, buffers := buffers,
      chunks := [] } rfl (Nat.zero_le N)
  have hw := walkLoop_fuel_mono d N _ _ w' hw' fuel hfuel
  have hz1 : w'.passed = (advanceRuns N s.mPassed s.mActive).1 := congrArg Prod.fst hz
  have hz2 : w'.active = (advanceRuns N s.mPassed s.mActive).2 := congrArg Prod.snd hz
  have hp' : w'.numProcessedSamples = min N (framesOf s.mActive).length := by
    rw [hp]; simp
  have hN64 : N < 2 ^ 64 := lt_trans hN (by norm_num)
  have hsub : sizeSub N w'.numProcessedSamples = N - w'.numProcessedSamples :=
    sizeSub_of_le (by omega) hN64
  refine ⟨finishPull d s N w', ?_, ?_, ?_⟩
  · simp only [GetNext, cursorForWalk_of_some d s e hs, hw, Option.map_some']
  · simp only [finishPull, hs, Option.map_some', hz1, hz2]
  · intro c i
    have hfin : (finishPull d s N w').buffers c i =
        if 0 < sizeSub N w'.numProcessedSamples then
          (if c < d.NChannels ∧ w'.numProcessedSamples ≤ i ∧
              i < w'.numProcessedSamples + sizeSub N w'.numProcessedSamples
            then 0 else w'.buffers c i)
        else w'.buffers c i := by
      simp only [finishPull]
      split <;> rfl
    have hb' : w'.buffers c i =
        if c < d.NChannels ∧ i < min N (framesOf s.mActive).length
        then frameSample (framesOf s.mActive) c i else buffers c i := by
      rw [hb]
      by_cases hcond : c < d.NChannels ∧ i < min N (framesOf s.mActive).length
      · rw [if_pos hcond, if_pos ⟨hcond.1, Nat.zero_le i, by simpa using hcond.2⟩]
        rfl
      · rw [if_neg hcond, if_neg]
        intro hc
        exact hcond ⟨hc.1, by simpa using hc.2.2⟩
    rw [hfin, hsub, hb', hp']
    split_ifs <;>
      first
      | rfl
      | (exfalso; omega)
      | exact (frameSample_of_le _ _ _ (by omega)).symm

omit [Zero α] in
theorem cursorForGet_expectedStart (d : Decorated (List (Nat → α)) τ α)
    (s : StretchingSequence (List (Nat → α)) τ) (start : sampleCount) (backwards : Bool)
    (hround : (s.mExpectedStart = none ∨ s.mExpectedStart ≠ some start ∨
        s.mPlaybackDirection ≠ directionOf backwards) →
      d.TimeToLongSamples (d.sampleTime start) = start) :
    (cursorForGet d s start backwards).mExpectedStart = some start ∧
      (cursorForGet d s start backwards).mPlaybackDirection = directionOf backwards := by
  unfold cursorForGet
  by_cases hseek : s.mExpectedStart = none ∨ s.mExpectedStart ≠ some start ∨
      s.mPlaybackDirection ≠ directionOf backwards
  · rw [if_pos hseek]
    exact ⟨congrArg some (hround hseek), rfl⟩
  · rw [if_neg hseek]
    constructor
    · by_contra hne
      exact hseek (Or.inr (Or.inl hne))
    · by_contra hne
      exact hseek (Or.inr (Or.inr hne))

omit [Zero α] in
theorem cursorForGet_of_match (d : Decorated (List (Nat → α)) τ α)
    (s : StretchingSequence (List (Nat → α)) τ) (start : sampleCount) (backwards : Bool)
    (hs : s.mExpectedStart = some start) (hd : s.mPlaybackDirection = directionOf backwards) :
    cursorForGet d s start backwards = s := by
  unfold cursorForGet
  rw [if_neg]
  rw [hs, hd]
  simp

/-- A `Get` over run segments, for a request below `2 ^ 32`, in closed form. -/
theorem Get_runs (d : Decorated (List (Nat → α)) τ α) (hseg : d.segment = runSegment α)
    (s : StretchingSequence (List (Nat → α)) τ) (nBuffers : Nat) (buffers : Buffers α)
    (start : sampleCount) (N : Nat) (backwards : Bool) (hN : N < 2 ^ 32)
    (hround : (s.mExpectedStart = none ∨ s.mExpectedStart ≠ some start ∨
        s.mPlaybackDirection ≠ directionOf backwards) →
      d.TimeToLongSamples (d.sampleTime start) = start)
    (fuel : Nat) (hfuel : (cursorForGet d s start backwards).mActive.length ≤ fuel) :
    ∃ r, Get d fuel s 0 nBuffers buffers start N backwards = some (Outcome.returned r) ∧
      r.seq =
        { mPassed := (advanceRuns N (cursorForGet d s start backwards).mPassed
            (cursorForGet d s start backwards).mActive).1
          mActive := (advanceRuns N (cursorForGet d s start backwards).mPassed
            (cursorForGet d s start backwards).mActive).2
          mExpectedStart := some (if backwards then start - (N : Int) else start + (N : Int))
          mPlaybackDirection := directionOf backwards
          mCreateCalls := (cursorForGet d s start backwards).mCreateCalls } ∧
      ∀ c i, r.buffers c i =
        if c < d.NChannels ∧ i < N
        then frameSample (framesOf (cursorForGet d s start backwards).mActive) c i
        else buffers c i := by
  obtain ⟨he, hd⟩ := cursorForGet_expectedStart d s start backwards hround
  obtain ⟨r, hr, hseq, hbuf⟩ := GetNext_runs d hseg (cursorForGet d s start backwards) start he
    buffers nBuffers N hN fuel hfuel
  refine ⟨r, ?_, ?_, hbuf⟩
  · unfold Get
    rw [MutableGet_eq]
    show Option.map Outcome.returned
      (GetNext d fuel (cursorForGet d s start backwards) buffers nBuffers N) = _
    rw [hr]
    rfl
  · rw [hseq, hd]
    cases backwards <;> simp [directionOf]

end Runs

/-! ## Two pulls in a row, and one pull of the sum -/

section Split

variable {τ α : Type} [Zero α]

/-- Splitting a pull below the width of the counter.  Over segments that each deliver a fixed
run of frames, as many per call as
requested or as remain, with `A + B < 2 ^ 32`, and with the conversion of `start` to a time and
back giving `start` in case the first `Get` has to seek: from the same initial state, a `Get`
of `A` samples at `start` followed by a `Get` of `B` samples at the continuing position in the
same direction, and a single `Get` of `A + B` samples at `start`, all return (with any fuel from
the number of segments on), the single buffer holds the first call's samples followed by the
second's, and the final cursor states are equal. -/
theorem Get_split_runs (d : Decorated (List (Nat → α)) τ α) (hseg : d.segment = runSegment α)
    (s : StretchingSequence (List (Nat → α)) τ) (nBuffers : Nat) (start : sampleCount)
    (backwards : Bool) (A B : Nat) (hAB : A + B < 2 ^ 32)
    (hround : (s.mExpectedStart = none ∨ s.mExpectedStart ≠ some start ∨
        s.mPlaybackDirection ≠ directionOf backwards) →
      d.TimeToLongSamples (d.sampleTime start) = start)
    (bufA bufB bufAB : Buffers α) :
    ∃ fuel₀, ∀ fuel, fuel₀ ≤ fuel →
      ∃ rA rB rAB,
        Get d fuel s 0 nBuffers bufA start A backwards = some (Outcome.returned rA) ∧
        Get d fuel rA.seq 0 nBuffers bufB
            (if backwards then start - (A : Int) else start + (A : Int)) B backwards =
          some (Outcome.returned rB) ∧
        Get d fuel s 0 nBuffers bufAB start (A + B) backwards = some (Outcome.returned rAB) ∧
        (∀ c, c < d.NChannels → ∀ i, i < A + B →
          rAB.buffers c i = if i < A then rA.buffers c i else rB.buffers c (i - A)) ∧
        rB.seq = rAB.seq := by
  refine ⟨(cursorForGet d s start backwards).mActive.length, fun fuel hfuel => ?_⟩
  obtain ⟨rA, hA, hseqA, hbufA⟩ := Get_runs d hseg s nBuffers bufA start A backwards
    (by omega) hround fuel hfuel
  obtain ⟨rAB, hAB', hseqAB, hbufAB⟩ := Get_runs d hseg s nBuffers bufAB start (A + B) backwards
    hAB hround fuel hfuel
  have hsA : rA.seq.mExpectedStart =
      some (if backwards then start - (A : Int) else start + (A : Int)) := by rw [hseqA]
  have hdA : rA.seq.mPlaybackDirection = directionOf backwards := by rw [hseqA]
  have hcur : cursorForGet d rA.seq (if backwards then start - (A : Int) else start + (A : Int))
      backwards = rA.seq := cursorForGet_of_match d rA.seq _ backwards hsA hdA
  have hlen : rA.seq.mActive.length ≤ fuel := by
    rw [hseqA]
    exact le_trans (length_advanceRuns _ _ _) hfuel
  obtain ⟨rB, hB, hseqB, hbufB⟩ := Get_runs d hseg rA.seq nBuffers bufB
    (if backwards then start - (A : Int) else start + (A : Int)) B backwards (by omega)
    (fun hmis => by
      rcases hmis with h | h | h
      · rw [hsA] at h; cases h
      · exact absurd hsA h
      · exact absurd hdA h)
    fuel (by rw [hcur]; exact hlen)
  rw [hcur] at hseqB hbufB
  refine ⟨rA, rB, rAB, hA, hB, hAB', ?_, ?_⟩
  · intro c hc i hi
    rw [hbufAB, if_pos ⟨hc, hi⟩]
    by_cases hiA : i < A
    · rw [if_pos hiA, hbufA, if_pos ⟨hc, hiA⟩]
    · rw [if_neg hiA, hbufB, if_pos ⟨hc, by omega⟩]
      have hact : rA.seq.mActive = (advanceRuns A (cursorForGet d s start backwards).mPassed
          (cursorForGet d s start backwards).mActive).2 := by rw [hseqA]
      rw [hact, framesOf_advanceRuns, frameSample_drop]
      congr 1
      omega
  · rw [hseqB, hseqAB]
    have hp : rA.seq.mPassed = (advanceRuns A (cursorForGet d s start backwards).mPassed
        (cursorForGet d s start backwards).mActive).1 := by rw [hseqA]
    have hact : rA.seq.mActive = (advanceRuns A (cursorForGet d s start backwards).mPassed
        (cursorForGet d s start backwards).mActive).2 := by rw [hseqA]
    have hcalls : rA.seq.mCreateCalls = (cursorForGet d s start backwards).mCreateCalls := by
      rw [hseqA]
    rw [hp, hact, hcalls, advanceRuns_add]
    congr 1
    cases backwards
    · simp only [Bool.false_eq_true, if_false, Nat.cast_add]
      rw [add_assoc]
    · simp only [if_true, Nat.cast_add]
      rw [sub_sub]

end Split

/-- An instance of `Get_split_runs`: on the two-clip track, from a fresh decorator, 3 samples
then 4 samples against 7 samples at once. -/
theorem Get_split_runs_witness :
    ∃ fuel₀, ∀ fuel, fuel₀ ≤ fuel →
      ∃ rA rB rAB,
        Get (twoClipTrack (11 : Int) 12 13 14) fuel (StretchingSequence.init _ _) 0 1
          (constBuffers 99) 0 3 false = some (Outcome.returned rA) ∧
        Get (twoClipTrack (11 : Int) 12 13 14) fuel rA.seq 0 1 (constBuffers 98) 3 4 false =
          some (Outcome.returned rB) ∧
        Get (twoClipTrack (11 : Int) 12 13 14) fuel (StretchingSequence.init _ _) 0 1
          (constBuffers 97) 0 7 false = some (Outcome.returned rAB) ∧
        (∀ c, c < 1 → ∀ i, i < 7 →
          rAB.buffers c i = if i < 3 then rA.buffers c i else rB.buffers c (i - 3)) ∧
        rB.seq = rAB.seq :=
  Get_split_runs (twoClipTrack (11 : Int) 12 13 14) rfl (StretchingSequence.init _ _) 1 0 false
    3 4 (by norm_num) (fun _ => rfl) (constBuffers 99) (constBuffers 98) (constBuffers 97)

/-! ## The conversion of a position to a time and back -/

theorem excessBits_of_lt (bits m : Nat) (h : m < 2 ^ 53) : excessBits bits m = 0 := by
  cases bits with
  | zero => rfl
  | succ bits =>
    show (if m < 2 ^ 53 then 0 else excessBits bits (m / 2) + 1) = 0
    rw [if_pos h]

/-- A `long long` of magnitude below `2 ^ 53` converts to the `double` of the same value. -/
theorem as_double_exact (value : Int) (h : value.natAbs < 2 ^ 53) : as_double value = value := by
  unfold as_double
  simp only [excessBits_of_lt 64 _ h, pow_zero, Nat.div_one, Nat.mod_one, mul_zero, mul_one]
  have h1 : ¬ (1 < 0) := by decide
  have h2 : ¬ ((0 : Nat) = 1) := by decide
  simp only [h1, h2, decide_False, Bool.false_and, Bool.or_self, Bool.false_eq_true, if_false]
  by_cases hv : value < 0
  · rw [if_pos hv]
    omega
  · rw [if_neg hv]
    omega

/-- The positions `2 ^ 53` and `2 ^ 53 + 1` convert to the same `double`, so whatever the
division by the rate and `TimeToLongSamples` do, the conversion of a position to a time and back
does not give back both. -/
theorem round_trip_fails_beyond_two_pow_53 {σ τ α : Type} (d : Decorated σ τ α)
    (hd : d.TimeThroughDouble) :
    d.TimeToLongSamples (d.sampleTime 9007199254740992) ≠ 9007199254740992 ∨
    d.TimeToLongSamples (d.sampleTime 9007199254740993) ≠ 9007199254740993 := by
  obtain ⟨f, hf⟩ := hd
  have e : as_double 9007199254740993 = as_double 9007199254740992 := by decide
  by_contra hc
  push_neg at hc
  obtain ⟨h1, h2⟩ := hc
  rw [hf, e, ← hf, h1] at h2
  revert h2
  decide

section Continuity

variable {σ τ α : Type} [Zero α]

end Continuity

theorem restoreSelection_ids :
    ∀ (tracks : TrackList) (flags : List Bool),
      (restoreSelection tracks flags).map Track.id = tracks.map Track.id := by
  intro tracks
  induction tracks with
  | nil => intro flags; rfl
  | cons track tracks ih =>
    intro flags
    cases flags with
    | nil => rfl
    | cons flag flags =>
      simp only [restoreSelection, List.map_cons, ih]

theorem restoreSelection_selected :
    ∀ (tracks : TrackList) (flags : List Bool), flags.length = tracks.length →
      (restoreSelection tracks flags).map Track.selected = flags := by
  intro tracks
  induction tracks with
  | nil =>
    intro flags h
    have : flags = [] := List.length_eq_zero.mp h
    subst this
    rfl
  | cons track tracks ih =>
    intro flags h
    cases flags with
    | nil => simp at h
    | cons flag flags =>
      have h' : flags.length = tracks.length := by simpa using h
      simp only [restoreSelection, List.map_cons, ih flags h']

/-- C10.  A `SelectionStateChanger` constructed over state `state` and leaders `tracks` and
destroyed without `Commit`, at a moment when the state is `state'` and the leaders are `tracks'`
(whatever happened to the selected flags and the last-picked track in between), the leaders
being the same tracks in the same order: afterwards every leader has the selected flag it had at
construction, the last-picked track is the one of construction, and the leaders are still the
same tracks.  If `Commit` was called first, the destructor leaves the state and every selected
flag as they are. -/
theorem SelectionStateChanger_rollback (state state' : SelectionState) (tracks tracks' : TrackList)
    (hsame : tracks'.map Track.id = tracks.map Track.id) :
    ((SelectionStateChanger.construct state tracks).destroy state' tracks').2 = tracks ∧
    ((SelectionStateChanger.construct state tracks).destroy state' tracks').1.mLastPickedTrack =
      state.mLastPickedTrack ∧
    (SelectionStateChanger.construct state tracks).Commit.destroy state' tracks' =
      (state', tracks') := by
  refine ⟨?_, rfl, rfl⟩
  show restoreSelection tracks' (tracks.map fun track => track.selected) = tracks
  have hlen : (tracks.map fun track => track.selected).length = tracks'.length := by
    have := congrArg List.length hsame
    simpa using this.symm
  have hids := restoreSelection_ids tracks' (tracks.map fun track => track.selected)
  have hsel := restoreSelection_selected tracks' _ hlen
  rw [hsame] at hids
  apply List.ext_getElem
  · have := congrArg List.length hids
    simpa using this
  · intro n h1 h2
    have e1 : ((restoreSelection tracks' (tracks.map fun track => track.selected)).map
        Track.id)[n]? = (tracks.map Track.id)[n]? := by rw [hids]
    have e2 : ((restoreSelection tracks' (tracks.map fun track => track.selected)).map
        Track.selected)[n]? = (tracks.map fun track => track.selected)[n]? := by rw [hsel]
    simp only [List.getElem?_map, List.getElem?_eq_getElem h1, List.getElem?_eq_getElem h2,
      Option.map_some', Option.some.injEq] at e1 e2
    cases hx : (restoreSelection tracks' (tracks.map fun track => track.selected))[n] with
    | mk i sel =>
      cases hy : tracks[n] with
      | mk i' sel' =>
        rw [hx, hy] at e1 e2
        simp only at e1 e2
        rw [e1, e2]

/-- An instance of `SelectionStateChanger_rollback`: three leaders, the second selected and
picked last; in between the selection is changed to the first and third and the last-picked
track to the third; destruction without `Commit` restores both. -/
theorem SelectionStateChanger_rollback_witness :
    ((SelectionStateChanger.construct { mLastPickedTrack := some 2 }
        [{ id := 1, selected := false }, { id := 2, selected := true },
          { id := 3, selected := false }]).destroy { mLastPickedTrack := some 3 }
        [{ id := 1, selected := true }, { id := 2, selected := false },
          { id := 3, selected := true }]).2 =
      [{ id := 1, selected := false }, { id := 2, selected := true },
        { id := 3, selected := false }] ∧
    ((SelectionStateChanger.construct { mLastPickedTrack := some 2 }
        [{ id := 1, selected := false }, { id := 2, selected := true },
          { id := 3, selected := false }]).destroy { mLastPickedTrack := some 3 }
        [{ id := 1, selected := true }, { id := 2, selected := false },
          { id := 3, selected := true }]).1.mLastPickedTrack = some 2 :=
  ⟨(SelectionStateChanger_rollback { mLastPickedTrack := some 2 } { mLastPickedTrack := some 3 }
      [{ id := 1, selected := false }, { id := 2, selected := true },
        { id := 3, selected := false }]
      [{ id := 1, selected := true }, { id := 2, selected := false },
        { id := 3, selected := true }] (by decide)).1,
    (SelectionStateChanger_rollback { mLastPickedTrack := some 2 } { mLastPickedTrack := some 3 }
      [{ id := 1, selected := false }, { id := 2, selected := true },
        { id := 3, selected := false }]
      [{ id := 1, selected := true }, { id := 2, selected := false },
        { id := 3, selected := true }] (by decide)).2.1⟩

/-! ## The two-clip scenario -/

/-- C6.  On the mono track with clips `[0,2)` (samples `a0 a1`) and `[5,7)` (samples `b0 b1`)
at rate 1, a forward `Get` of 10 samples from position 0 on a fresh decorator returns (with any
fuel from 3 on, whatever the buffer held before) and leaves `a0 a1` at indices 0-1, `b0 b1` at
indices 5-6, and zeros at indices 2-4 and 7-9. -/
theorem Get_two_clip_scenario {α : Type} [Zero α] (a0 a1 b0 b1 : α) (buffers : Buffers α)
    (k : Nat) :
    ∃ r, Get (twoClipTrack a0 a1 b0 b1) (3 + k) (StretchingSequence.init _ _) 0 1 buffers 0 10
        false = some (Outcome.returned r) ∧
      r.buffers 0 0 = a0 ∧ r.buffers 0 1 = a1 ∧
      r.buffers 0 2 = 0 ∧ r.buffers 0 3 = 0 ∧ r.buffers 0 4 = 0 ∧
      r.buffers 0 5 = b0 ∧ r.buffers 0 6 = b1 ∧
      r.buffers 0 7 = 0 ∧ r.buffers 0 8 = 0 ∧ r.buffers 0 9 = 0 := by
  obtain ⟨r, hr, _, hbuf⟩ := Get_runs (twoClipTrack a0 a1 b0 b1) rfl (StretchingSequence.init _ _)
    1 buffers 0 10 false (by norm_num) (fun _ => rfl) (3 + k) (Nat.le_add_right 3 k)
  refine ⟨r, hr, ?_, ?_, ?_, ?_, ?_, ?_, ?_, ?_, ?_, ?_⟩ <;> rw [hbuf] <;> rfl


/-! ## Requests of `2 ^ 32` samples: the 32-bit counter wraps -/

/-- C1 (failing input).  A fresh decorator over a mono track whose factory yields one segment of
`2 ^ 32` samples of value 1 is asked by `Get` for `numSamples = 2 ^ 32` samples from position 0.
The call returns after one `GetFloats` call that returned all `2 ^ 32` samples (each of value
1) and exhausted the list, so `p = N = 2 ^ 32`; but adding `2 ^ 32` to the `unsigned`
counter `numProcessedSamples` leaves it at 0, `remaining` is computed as `2 ^ 32`, and the
zero-fill overwrites the samples: every index below `2 ^ 32` of the buffer holds 0, not 1. -/
theorem Get_two_pow_32_overwritten :
    ∃ r, Get (toneTrack 4294967296) 1 (StretchingSequence.init _ _) 0 1 (constBuffers 99) 0
        4294967296 false = some (Outcome.returned r) ∧
      r.chunks.map Chunk.count = [4294967296] ∧
      (∀ chunk, chunk ∈ r.chunks → ∀ i, chunk.data 0 i = 1) ∧
      r.seq.mActive = [] ∧
      (∀ i, i < 4294967296 → r.buffers 0 i = 0) := by
  refine ⟨_, rfl, rfl, ?_, rfl, ?_⟩
  · intro chunk hmem i
    have hc : chunk = { count := 4294967296, data := fun _ _ => 1 } := by
      have hl : ∀ l : List (Chunk Int), l = [{ count := 4294967296, data := fun _ _ => 1 }] →
          chunk ∈ l → chunk = { count := 4294967296, data := fun _ _ => 1 } := by
        intro l hl hm
        rw [hl] at hm
        exact List.mem_singleton.mp hm
      exact hl _ rfl hmem
    rw [hc]
  · intro i hi
    show (if 0 < 1 ∧ 0 ≤ i ∧ i < 0 + 4294967296 then (0 : Int) else _) = 0
    rw [if_pos ⟨by decide, by omega, by omega⟩]

/-- The walk over one endless segment with a request of `2 ^ 32` never ends, whatever the
buffers hold. -/
theorem walkLoop_endless (fuel : Nat) :
    ∀ w : Walk Unit Int, w.numProcessedSamples = 0 → w.active = [()] →
      walkLoop endlessTrack 4294967296 fuel w = none := by
  induction fuel with
  | zero =>
    intro w hp ha
    exact walkLoop_zero endlessTrack _ w () [] (by rw [hp]; decide) ha
  | succ fuel ih =>
    intro w hp ha
    rw [walkLoop_step endlessTrack _ fuel w () [] (by rw [hp]; decide) ha]
    refine ih _ ?_ rfl
    rw [walkBody_numProcessedSamples, hp]
    rfl

/-- C4 (failing input).  From a fresh decorator over one segment of `2 ^ 32` samples of value 1:
a `Get` of `2 ^ 31` samples at 0 followed by a `Get` of `2 ^ 31` samples at `2 ^ 31` in the same
direction, with no factory call in between, against a single `Get` of `2 ^ 32` samples at 0.
All three return; the first of the two pulls leaves the sample 1 at index 0, and the single pull
leaves 0 there, so its buffer is not the first call's output followed by the second's: the
`unsigned` counter of `GetNext` wrapped to 0 and the zero-fill ran over the samples. -/
theorem Get_split_two_pow_32_differs :
    ∃ rA rB rAB,
      Get (toneTrack 4294967296) 2 (StretchingSequence.init _ _) 0 1 (constBuffers 99) 0
        2147483648 false = some (Outcome.returned rA) ∧
      Get (toneTrack 4294967296) 2 rA.seq 0 1 (constBuffers 99) 2147483648 2147483648 false =
        some (Outcome.returned rB) ∧
      Get (toneTrack 4294967296) 2 (StretchingSequence.init _ _) 0 1 (constBuffers 99) 0
        (2147483648 + 2147483648) false = some (Outcome.returned rAB) ∧
      rB.seq.mCreateCalls = rA.seq.mCreateCalls ∧
      rA.buffers 0 0 = 1 ∧ rAB.buffers 0 0 = 0 :=
  ⟨_, _, _, rfl, rfl, rfl, rfl, rfl, rfl⟩

/-- C8 (failing input).  The endless segment returns zero samples only when asked for zero, and
never more than asked, so a list holding it is within the hypothesis of the claim; yet with
`numSamples = 2 ^ 32` the segment walk of a `Get` never ends (no fuel suffices): each run of the
body adds `2 ^ 32` to the `unsigned` counter, which leaves it at 0, and does not move the
iterator.  The same happens with a finite segment of `2 ^ 33` samples: one run of the body
leaves the counter at 0 and the iterator on the same, not yet empty, segment. -/
theorem walk_two_pow_32_no_progress :
    endlessSegment.ZeroOnlyIfEmpty ∧ endlessSegment.AtMostRequested ∧
    (∀ fuel, Get endlessTrack fuel (StretchingSequence.init _ _) 0 1 (constBuffers 99) 0
        4294967296 false = none) ∧
    toneSegment.ZeroOnlyIfEmpty ∧ toneSegment.AtMostRequested ∧
    (walkBody (toneTrack 8589934592) 4294967296
        { passed := [], active := [8589934592], numProcessedSamples := 0,
          buffers := constBuffers 99, chunks := [] } 8589934592 []).numProcessedSamples = 0 ∧
    (walkBody (toneTrack 8589934592) 4294967296
        { passed := [], active := [8589934592], numProcessedSamples := 0,
          buffers := constBuffers 99, chunks := [] } 8589934592 []).active = [4294967296] := by
  refine ⟨?_, ?_, ?_, ?_, ?_, rfl, rfl⟩
  · intro s n hn h
    have h0 : n = 0 := h
    omega
  · intro s n
    exact le_refl n
  · intro fuel
    have hw := walkLoop_endless fuel
      { passed := [], active := [()], numProcessedSamples := 0, buffers := constBuffers 99,
        chunks := [] } rfl rfl
    unfold Get
    have hseek : (StretchingSequence.init Unit Int).mExpectedStart = none ∨
        (StretchingSequence.init Unit Int).mExpectedStart ≠ some 0 ∨
        (StretchingSequence.init Unit Int).mPlaybackDirection ≠ directionOf false :=
      Or.inl rfl
    rw [MutableGet_eq, if_pos hseek]
    have hg : GetNext endlessTrack fuel
        (ResetCursor endlessTrack (StretchingSequence.init _ _) (endlessTrack.sampleTime 0)
          (directionOf false)) (constBuffers 99) 1 4294967296 = none := by
      show Option.map _ (walkLoop endlessTrack 4294967296 fuel
        (Walk.mk [] [()] 0 (constBuffers 99) [])) = none
      rw [hw]
      rfl
    rw [hg]
    rfl
  · intro left n hn h
    have h0 : min n left = 0 := h
    have hl : left = 0 := by omega
    subst hl
    simp [toneSegment]
  · intro left n
    exact Nat.min_le_left _ _

/-! ## `SelectionState.cpp`: ranges of leaders -/

/-! ## Positions in a list of identities -/

theorem indexOf_drop (e : Nat) :
    ∀ (l : List Nat) (lo : Nat), lo ≤ l.indexOf e → (l.drop lo).indexOf e = l.indexOf e - lo := by
  intro l
  induction l with
  | nil => intro lo _; simp
  | cons a l ih =>
    intro lo h
    cases lo with
    | zero => simp
    | succ k =>
      have hne : a ≠ e := by
        intro hae
        rw [hae, List.indexOf_cons_self] at h
        omega
      rw [List.indexOf_cons_ne _ hne] at h ⊢
      rw [List.drop_succ_cons, ih k (by omega)]
      omega

theorem mem_take_iff_indexOf (x : Nat) :
    ∀ (l : List Nat) (n : Nat), x ∈ l.take n ↔ x ∈ l ∧ l.indexOf x < n := by
  intro l
  induction l with
  | nil => intro n; simp
  | cons a l ih =>
    intro n
    cases n with
    | zero => simp
    | succ n =>
      by_cases hax : a = x
      · subst hax
        simp
      · rw [List.take_succ_cons, List.mem_cons, List.mem_cons, ih n, List.indexOf_cons_ne _ hax]
        have hxa : ¬ x = a := fun h => hax h.symm
        simp [hxa]

theorem mem_drop_iff_indexOf (x : Nat) :
    ∀ (l : List Nat) (lo : Nat), l.Nodup → (x ∈ l.drop lo ↔ x ∈ l ∧ lo ≤ l.indexOf x) := by
  intro l
  induction l with
  | nil => intro lo _; simp
  | cons a l ih =>
    intro lo hnd
    cases lo with
    | zero => simp
    | succ k =>
      have hnd' := List.nodup_cons.mp hnd
      rw [List.drop_succ_cons, ih k hnd'.2]
      by_cases hax : a = x
      · subst hax
        simp [hnd'.1]
      · rw [List.indexOf_cons_ne _ hax, List.mem_cons]
        have hxa : ¬ x = a := fun h => hax h.symm
        simp [hxa]

/-- The identities between two positions of a list without repetitions. -/
theorem mem_range_iff_indexOf (l : List Nat) (hnd : l.Nodup) (s e x : Nat)
    (hse : l.indexOf s ≤ l.indexOf e) :
    x ∈ ((l.drop (l.indexOf s)).take ((l.drop (l.indexOf s)).indexOf e + 1)) ↔
      x ∈ l ∧ l.indexOf s ≤ l.indexOf x ∧ l.indexOf x ≤ l.indexOf e := by
  rw [mem_take_iff_indexOf, mem_drop_iff_indexOf x l _ hnd, indexOf_drop e l _ hse]
  constructor
  · rintro ⟨⟨hx, hlo⟩, hhi⟩
    rw [indexOf_drop x l _ hlo] at hhi
    exact ⟨hx, hlo, by omega⟩
  · rintro ⟨hx, hlo, hhi⟩
    refine ⟨⟨hx, hlo⟩, ?_⟩
    rw [indexOf_drop x l _ hlo]
    omega

/-! ## The selection operations -/

theorem SetSelected_ids (tracks : TrackList) (track : Nat) (b : Bool) :
    (SetSelected tracks track b).map Track.id = tracks.map Track.id := by
  unfold SetSelected
  rw [List.map_map]
  apply List.map_congr_left
  intro t _
  show (if t.id = track then { t with selected := b } else t).id = t.id
  split <;> rfl

/-- A loop of `SelectTrack(*t, b, false)` over tracks `range`: the flag becomes `b` on the
leaders whose identity is in the range, and nothing else changes. -/
theorem foldl_SelectTrack (b : Bool) :
    ∀ (range : TrackList) (st : SelectionState × TrackList),
      range.foldl (fun st t => SelectTrack st t.id b false) st =
        (st.1, st.2.map fun t =>
          if t.id ∈ range.map Track.id then { t with selected := b } else t) := by
  intro range
  induction range with
  | nil =>
    intro st
    simp
  | cons x range ih =>
    intro st
    rw [List.foldl_cons, ih]
    show (st.1, (SetSelected st.2 x.id b).map _) = _
    unfold SetSelected
    rw [List.map_map]
    congr 1
    apply List.map_congr_left
    intro t _
    simp only [Function.comp, List.map_cons, List.mem_cons]
    by_cases h1 : t.id = x.id
    · simp [h1]
    · by_cases h2 : t.id ∈ range.map Track.id
      · simp [h1, h2]
      · simp [h1, h2]

theorem SelectNone_eq (st : SelectionState × TrackList) :
    SelectNone st = (st.1, st.2.map fun t => { t with selected := false }) := by
  unfold SelectNone
  rw [foldl_SelectTrack]
  congr 1
  apply List.map_congr_left
  intro t ht
  rw [if_pos (List.mem_map_of_mem Track.id ht)]

theorem FindLeader_map (tracks : TrackList) (f : Track → Track) (hf : ∀ t, (f t).id = t.id)
    (track : Nat) : FindLeader (tracks.map f) track = FindLeader tracks track := by
  unfold FindLeader
  rw [List.map_map]
  congr 1
  apply List.map_congr_left
  intro t _
  exact hf t

/-- `SelectRangeOfTracks` in closed form, for a list of distinct tracks: the flag is set on the
leaders whose position lies between the positions of the two tracks, inclusive; no other flag
and not the last-picked track changes. -/
theorem SelectRangeOfTracks_eq (st : SelectionState × TrackList)
    (hnd : (st.2.map Track.id).Nodup) (s e : Nat) :
    SelectRangeOfTracks st s e =
      (st.1, st.2.map fun t =>
        if min (FindLeader st.2 s) (FindLeader st.2 e) ≤ FindLeader st.2 t.id ∧
            FindLeader st.2 t.id ≤ max (FindLeader st.2 s) (FindLeader st.2 e)
        then { t with selected := true } else t) := by
  unfold SelectRangeOfTracks
  simp only []
  rw [foldl_SelectTrack]
  congr 1
  apply List.map_congr_left
  intro t ht
  have hmem : t.id ∈ st.2.map Track.id := List.mem_map_of_mem Track.id ht
  have key : ∀ a b : Nat, FindLeader st.2 a ≤ FindLeader st.2 b →
      (t.id ∈ (EndingAfter (StartingWith st.2 a) b).map Track.id ↔
        FindLeader st.2 a ≤ FindLeader st.2 t.id ∧ FindLeader st.2 t.id ≤ FindLeader st.2 b) := by
    intro a b hab
    unfold EndingAfter StartingWith
    rw [List.map_take, List.map_drop]
    have h := mem_range_iff_indexOf (st.2.map Track.id) hnd a b t.id hab
    unfold FindLeader
    rw [List.map_drop]
    rw [h]
    simp [hmem]
  by_cases hswap : FindLeader st.2 e < FindLeader st.2 s
  · simp only [hswap, if_true]
    have hk := key e s (by omega)
    have hmin : min (FindLeader st.2 s) (FindLeader st.2 e) = FindLeader st.2 e := by omega
    have hmax : max (FindLeader st.2 s) (FindLeader st.2 e) = FindLeader st.2 s := by omega
    rw [hmin, hmax]
    by_cases hin : t.id ∈ (EndingAfter (StartingWith st.2 e) s).map Track.id
    · rw [if_pos hin, if_pos (hk.mp hin)]
    · rw [if_neg hin, if_neg (fun h => hin (hk.mpr h))]
  · simp only [hswap, if_false]
    have hk := key s e (by omega)
    have hmin : min (FindLeader st.2 s) (FindLeader st.2 e) = FindLeader st.2 s := by omega
    have hmax : max (FindLeader st.2 s) (FindLeader st.2 e) = FindLeader st.2 e := by omega
    rw [hmin, hmax]
    by_cases hin : t.id ∈ (EndingAfter (StartingWith st.2 s) e).map Track.id
    · rw [if_pos hin, if_pos (hk.mp hin)]
    · rw [if_neg hin, if_neg (fun h => hin (hk.mpr h))]

theorem FindLeader_getElem (tracks : TrackList) (hnd : (tracks.map Track.id).Nodup) (i : Nat)
    (h : i < tracks.length) : FindLeader tracks tracks[i].id = i := by
  unfold FindLeader
  have h' : i < (tracks.map Track.id).length := by simpa using h
  have := List.indexOf_getElem hnd i h'
  simpa using this

/-- The leader at each position after a map that looks at the position of the leader. -/
theorem getElem?_map_FindLeader (tracks : TrackList) (hnd : (tracks.map Track.id).Nodup)
    (g : Nat → Track → Track) (i : Nat) :
    (tracks.map fun t => g (FindLeader tracks t.id) t)[i]? = tracks[i]?.map (g i) := by
  rw [List.getElem?_map]
  by_cases h : i < tracks.length
  · rw [List.getElem?_eq_getElem h]
    simp only [Option.map_some']
    rw [FindLeader_getElem tracks hnd i h]
  · rw [List.getElem?_eq_none (by omega)]
    rfl

/-- `ChangeSelectionOnShiftClick` in closed form when an extend-from track exists. -/
theorem ChangeSelectionOnShiftClick_eq (st : SelectionState × TrackList)
    (hnd : (st.2.map Track.id).Nodup) (track p : Nat) (hp : extendFrom st track = some p) :
    ChangeSelectionOnShiftClick st track =
      ({ mLastPickedTrack := some p }, st.2.map fun t =>
        { t with selected :=
            decide (min (FindLeader st.2 track) (FindLeader st.2 p) ≤ FindLeader st.2 t.id ∧
              FindLeader st.2 t.id ≤ max (FindLeader st.2 track) (FindLeader st.2 p)) }) := by
  unfold ChangeSelectionOnShiftClick
  simp only [hp]
  have hnone : SelectNone st = (st.1, st.2.map fun t => { t with selected := false }) :=
    SelectNone_eq st
  have hfl : ∀ x, FindLeader (st.2.map fun t => { t with selected := false }) x =
      FindLeader st.2 x :=
    fun x => FindLeader_map st.2 (fun t => { t with selected := false }) (fun _ => rfl) x
  have hnd' : ((SelectNone st).2.map Track.id).Nodup := by
    rw [hnone]
    simpa [List.map_map, Function.comp] using hnd
  rw [SelectRangeOfTracks_eq (SelectNone st) hnd' track p, hnone]
  simp only [hfl, List.map_map]
  congr 1
  apply List.map_congr_left
  intro t _
  simp only [Function.comp]
  by_cases h : min (FindLeader st.2 track) (FindLeader st.2 p) ≤ FindLeader st.2 t.id ∧
      FindLeader st.2 t.id ≤ max (FindLeader st.2 track) (FindLeader st.2 p)
  · rw [if_pos h, decide_eq_true h]
  · rw [if_neg h, decide_eq_false h]

/-- `Lock` answers with a track only if the weak pointer points to it and it is in the list. -/
theorem Lock_eq_some (tracks : TrackList) (wTrack : Option Nat) (p : Nat)
    (h : Lock tracks wTrack = some p) : wTrack = some p ∧ p ∈ tracks.map Track.id := by
  unfold Lock at h
  cases wTrack with
  | none => cases h
  | some l =>
    simp only at h
    by_cases hm : l ∈ tracks.map Track.id
    · rw [if_pos hm] at h
      cases h
      exact ⟨rfl, hm⟩
    · rw [if_neg hm] at h
      cases h

/-- `Lock` answers with nothing when the weak pointer is empty or points to a track that is not
in the list. -/
theorem Lock_eq_none (tracks : TrackList) (wTrack : Option Nat)
    (h : wTrack = none ∨ ∃ l, wTrack = some l ∧ l ∉ tracks.map Track.id) :
    Lock tracks wTrack = none := by
  unfold Lock
  rcases h with h | ⟨l, h, hm⟩
  · rw [h]
  · rw [h]
    simp only
    rw [if_neg hm]

/-- The extend-from track is a track of the list. -/
theorem extendFrom_mem (st : SelectionState × TrackList) (track p : Nat)
    (hp : extendFrom st track = some p) : p ∈ st.2.map Track.id := by
  unfold extendFrom at hp
  cases hL : Lock st.2 st.1.mLastPickedTrack with
  | some q =>
    rw [hL] at hp
    cases hp
    exact (Lock_eq_some _ _ _ hL).2
  | none =>
    rw [hL] at hp
    simp only at hp
    have hlast : ∀ p, (SelectedLeaders st.2).getLast?.map Track.id = some p →
        p ∈ st.2.map Track.id := by
      intro p h
      obtain ⟨t, ht, rfl⟩ := Option.map_eq_some'.mp h
      have hmem : t ∈ SelectedLeaders st.2 := List.mem_of_getLast?_eq_some ht
      exact List.mem_map_of_mem _ (List.mem_of_mem_filter hmem)
    cases hh : (SelectedLeaders st.2).head? with
    | none =>
      rw [hh] at hp
      exact hlast p hp
    | some f =>
      rw [hh] at hp
      simp only at hp
      by_cases hpos : FindLeader st.2 track ≥ FindLeader st.2 f.id
      · rw [if_pos hpos] at hp
        cases hp
        have hmem : f ∈ SelectedLeaders st.2 := List.mem_of_mem_head? hh
        exact List.mem_map_of_mem _ (List.mem_of_mem_filter hmem)
      · rw [if_neg hpos] at hp
        exact hlast p hp

/-- C12.  On a list of distinct leaders, when `ChangeSelectionOnShiftClick` on the clicked track
finds an extend-from track `p`: `p` is a track of the list; afterwards the leader at each
position is selected exactly if the position lies between the positions of the clicked track
and of `p`, inclusive, the tracks are otherwise as before, and `p` is the last-picked track.
The extend-from track is the last-picked track if that track is in the list.  Otherwise (the
last-picked pointer is empty, or the track it points to is not in the list), with `f` the first
selected leader, it is `f` if the clicked track is at or after `f`, and the last selected
leader if the clicked track is before `f`; and there is none if no leader is selected. -/
theorem ChangeSelectionOnShiftClick_range (st : SelectionState × TrackList)
    (hnd : (st.2.map Track.id).Nodup) (track : Nat) :
    (∀ p, extendFrom st track = some p →
      p ∈ st.2.map Track.id ∧
      (∀ i : Nat, (ChangeSelectionOnShiftClick st track).2[i]? =
        st.2[i]?.map fun t : Track =>
          { t with selected :=
              decide (min ((st.2.map Track.id).indexOf track) ((st.2.map Track.id).indexOf p) ≤ i ∧
                i ≤ max ((st.2.map Track.id).indexOf track)
                  ((st.2.map Track.id).indexOf p)) }) ∧
      (ChangeSelectionOnShiftClick st track).1.mLastPickedTrack = some p) ∧
    (∀ l, st.1.mLastPickedTrack = some l → l ∈ st.2.map Track.id →
      extendFrom st track = some l) ∧
    ((st.1.mLastPickedTrack = none ∨
        ∃ l, st.1.mLastPickedTrack = some l ∧ l ∉ st.2.map Track.id) →
      (∀ f, (st.2.filter fun t => t.selected).head? = some f →
        (st.2.map Track.id).indexOf f.id ≤ (st.2.map Track.id).indexOf track →
        extendFrom st track = some f.id) ∧
      (∀ f, (st.2.filter fun t => t.selected).head? = some f →
        (st.2.map Track.id).indexOf track < (st.2.map Track.id).indexOf f.id →
        extendFrom st track = (st.2.filter fun t => t.selected).getLast?.map Track.id) ∧
      ((st.2.filter fun t => t.selected) = [] → extendFrom st track = none)) := by
  refine ⟨?_, ?_, ?_⟩
  · intro p hp
    rw [ChangeSelectionOnShiftClick_eq st hnd track p hp]
    refine ⟨extendFrom_mem st track p hp, fun i => ?_, rfl⟩
    exact getElem?_map_FindLeader st.2 hnd
      (fun j t => Track.mk t.id
        (decide (min (FindLeader st.2 track) (FindLeader st.2 p) ≤ j ∧
          j ≤ max (FindLeader st.2 track) (FindLeader st.2 p)))) i
  · intro l hl hmem
    unfold extendFrom Lock
    rw [hl]
    simp [hmem]
  · intro hdead
    have hlock := Lock_eq_none st.2 st.1.mLastPickedTrack hdead
    refine ⟨?_, ?_, ?_⟩
    · intro f hf hpos
      have hf' : (SelectedLeaders st.2).head? = some f := hf
      have hpos' : FindLeader st.2 f.id ≤ FindLeader st.2 track := hpos
      unfold extendFrom
      rw [hlock]
      simp only [hf']
      rw [if_pos hpos']
    · intro f hf hpos
      have hf' : (SelectedLeaders st.2).head? = some f := hf
      have hpos' : FindLeader st.2 track < FindLeader st.2 f.id := hpos
      unfold extendFrom
      rw [hlock]
      simp only [hf']
      rw [if_neg (by omega)]
      rfl
    · intro hnil
      have hnil' : SelectedLeaders st.2 = [] := hnil
      unfold extendFrom
      rw [hlock, hnil']
      rfl

/-- A click without ctrl leaves the clicked leader selected, whether shift is held or not. -/
theorem HandleListSelection_without_ctrl {T : Type} [LinearOrder T] (q : TrackQueries T)
    (alive : Nat → Bool) (st : SelectionState × TrackList) (hnd : (st.2.map Track.id).Nodup)
    (viewInfo : ViewInfo T) (track : Nat) (shift syncLocked : Bool) :
    ∀ t, t ∈ (HandleListSelection q alive st viewInfo track shift false syncLocked).1.2 →
      t.id = track → t.selected = true := by
  have hplain : ∀ t, t ∈ (SelectTrack (SelectNone st) track true true).2 →
      t.id = track → t.selected = true := by
    intro t ht hid
    rw [SelectNone_eq] at ht
    simp only [SelectTrack, SetSelected, List.mem_map] at ht
    obtain ⟨t1, ⟨t0, _, rfl⟩, rfl⟩ := ht
    by_cases h : t0.id = track
    · simp [h]
    · simp [h] at hid
  intro t ht hid
  unfold HandleListSelection at ht
  simp only [Bool.false_eq_true, if_false] at ht
  split at ht
  · -- the shift branch
    cases hp : extendFrom st track with
    | none =>
      have : (ChangeSelectionOnShiftClick st track).2 =
          (SelectTrack (SelectNone st) track true true).2 := by
        unfold ChangeSelectionOnShiftClick
        simp only [hp]
      rw [this] at ht
      exact hplain t ht hid
    | some p =>
      rw [ChangeSelectionOnShiftClick_eq st hnd track p hp] at ht
      simp only [List.mem_map] at ht
      obtain ⟨t0, _, rfl⟩ := ht
      have hid0 : t0.id = track := hid
      simp only [hid0, decide_eq_true_eq]
      exact ⟨min_le_left _ _, le_max_left _ _⟩
  · exact hplain t ht hid

/-- After `SetSelected` on a leader of the list, `GetSelected` gives the flag that was set. -/
theorem GetSelected_SetSelected (tracks : TrackList) (track : Nat) (selected : Bool)
    (h : track ∈ tracks.map Track.id) :
    GetSelected (SetSelected tracks track selected) track = selected := by
  induction tracks with
  | nil => simp at h
  | cons t tracks ih =>
    by_cases ht : t.id = track
    · simp [GetSelected, SetSelected, ht]
    · have h' : track ∈ tracks.map Track.id := by
        rcases List.mem_cons.mp h with h | h
        · exact absurd h.symm ht
        · exact h
      have := ih h'
      simp only [GetSelected, SetSelected] at this ⊢
      simp only [List.map_cons, if_neg ht, List.find?_cons]
      have hb : (t.id == track) = false := by simpa using ht
      rw [hb]
      exact this

/-- `GetSelected` is true for a leader of the list when every track of that identity in the list
is selected. -/
theorem GetSelected_of_forall (tracks : TrackList) (track : Nat)
    (hmem : track ∈ tracks.map Track.id)
    (h : ∀ t, t ∈ tracks → t.id = track → t.selected = true) :
    GetSelected tracks track = true := by
  unfold GetSelected
  cases hf : tracks.find? (fun t => t.id == track) with
  | none =>
    exfalso
    obtain ⟨t, ht, hid⟩ := List.mem_map.mp hmem
    have := List.find?_eq_none.mp hf t ht
    simp [hid] at this
  | some t =>
    simp only
    have hid : t.id = track := by simpa using List.find?_some hf
    exact h t (List.mem_of_find?_eq_some hf) hid

/-- The leaders after `HandleListSelection` are the same tracks in the same order. -/
theorem HandleListSelection_ids {T : Type} [LinearOrder T] (q : TrackQueries T)
    (alive : Nat → Bool) (st : SelectionState × TrackList) (hnd : (st.2.map Track.id).Nodup)
    (viewInfo : ViewInfo T) (track : Nat) (shift ctrl syncLocked : Bool) :
    (HandleListSelection q alive st viewInfo track shift ctrl syncLocked).1.2.map Track.id =
      st.2.map Track.id := by
  have hplain : (SelectTrack (SelectNone st) track true true).2.map Track.id =
      st.2.map Track.id := by
    rw [SelectNone_eq]
    simp only [SelectTrack]
    rw [SetSelected_ids, List.map_map]
    rfl
  unfold HandleListSelection
  cases ctrl with
  | true =>
    simp only [if_true, SelectTrack]
    exact SetSelected_ids _ _ _
  | false =>
    simp only [Bool.false_eq_true, if_false]
    split
    · cases hp : extendFrom st track with
      | none =>
        have : (ChangeSelectionOnShiftClick st track).2 =
            (SelectTrack (SelectNone st) track true true).2 := by
          unfold ChangeSelectionOnShiftClick
          simp only [hp]
        rw [this]
        exact hplain
      | some p =>
        rw [ChangeSelectionOnShiftClick_eq st hnd track p hp]
        simp only [List.map_map]
        rfl
    · exact hplain

/-- C14 (amended).  On a list of distinct leaders and for a clicked leader of the list: with
ctrl held, whether shift is held or not, `HandleListSelection` leaves the clicked track with the
negation of the selected flag it had, every other leader as it was, and the clicked track as
the last-picked one; with ctrl not held, whether shift is held or not, the clicked track is
selected afterwards whatever its flag was. -/
theorem HandleListSelection_ctrl_inverts {T : Type} [LinearOrder T] (q : TrackQueries T)
    (alive : Nat → Bool) (st : SelectionState × TrackList) (hnd : (st.2.map Track.id).Nodup)
    (viewInfo : ViewInfo T) (track : Nat) (htrack : track ∈ st.2.map Track.id)
    (shift syncLocked : Bool) :
    GetSelected (HandleListSelection q alive st viewInfo track shift true syncLocked).1.2 track =
      (!GetSelected st.2 track) ∧
    (HandleListSelection q alive st viewInfo track shift true syncLocked).1.2 =
      (st.2.map fun t : Track =>
        if t.id = track then { t with selected := !GetSelected st.2 track } else t) ∧
    (HandleListSelection q alive st viewInfo track shift true syncLocked).1.1.mLastPickedTrack =
      some track ∧
    GetSelected (HandleListSelection q alive st viewInfo track shift false syncLocked).1.2 track =
      true := by
  refine ⟨?_, rfl, rfl, ?_⟩
  · exact GetSelected_SetSelected st.2 track _ htrack
  · apply GetSelected_of_forall
    · rw [HandleListSelection_ids q alive st hnd]
      exact htrack
    · exact HandleListSelection_without_ctrl q alive st hnd viewInfo track shift syncLocked

/-- C14 (counterexample).  One leader, selected, with an empty last-picked pointer, clicked with
shift held and ctrl not held: the leader was selected before the call and is selected after
it.  The same holds when the last-picked pointer points to that leader, so that the shift-click
branch is the one taken. -/
theorem HandleListSelection_shift_not_inverted :
    GetSelected oneSelectedTrack.2 1 = true ∧
    GetSelected
      (HandleListSelection unitQueries (fun _ => true) oneSelectedTrack ⟨(0, 0)⟩ 1
        true false false).1.2 1 = true ∧
    GetSelected
      (HandleListSelection unitQueries (fun _ => true)
        ({ mLastPickedTrack := some 1 }, oneSelectedTrack.2) ⟨(0, 0)⟩ 1
        true false false).1.2 1 = true := by
  decide

/-- An instance of `ChangeSelectionOnShiftClick_range`: on five leaders of which the second and
fourth are selected and with no last-picked track, a shift-click on the fifth extends from the
second; with a last-picked pointer to a track that is not in the list, a shift-click on the
first extends from the fourth (the last selected leader) and one on the fifth from the second
(the first selected leader). -/
theorem ChangeSelectionOnShiftClick_range_witness :
    extendFrom fiveTracks 5 = some 2 ∧
    (ChangeSelectionOnShiftClick fiveTracks 5).1.mLastPickedTrack = some 2 ∧
    (ChangeSelectionOnShiftClick fiveTracks 5).2.map Track.selected =
      [false, true, true, true, true] ∧
    extendFrom fiveTracksStalePick 1 = some 4 ∧
    extendFrom fiveTracksStalePick 5 = some 2 :=
  ⟨rfl, ((ChangeSelectionOnShiftClick_range fiveTracks (by decide) 5).1 2 rfl).2.2, by decide,
    ((ChangeSelectionOnShiftClick_range fiveTracksStalePick (by decide) 1).2.2
      (Or.inr ⟨9, rfl, by decide⟩)).2.1 ⟨2, true⟩ rfl (by decide),
    ((ChangeSelectionOnShiftClick_range fiveTracksStalePick (by decide) 5).2.2
      (Or.inr ⟨9, rfl, by decide⟩)).1 ⟨2, true⟩ rfl (by decide)⟩

/-- An instance of `HandleListSelection_ctrl_inverts`: on five leaders, the second of which is
selected, a click on the second with ctrl (and shift) held leaves it unselected, and a click on
it with shift held and ctrl not held leaves it selected. -/
theorem HandleListSelection_ctrl_inverts_witness :
    GetSelected fiveTracks.2 2 = true ∧
    GetSelected
      (HandleListSelection unitQueries (fun _ => true) fiveTracks ⟨(0, 0)⟩ 2
        true true false).1.2 2 = false ∧
    GetSelected
      (HandleListSelection unitQueries (fun _ => true) fiveTracks ⟨(0, 0)⟩ 2
        true false false).1.2 2 = true :=
  ⟨rfl,
    (HandleListSelection_ctrl_inverts unitQueries (fun _ => true) fiveTracks (by decide)
      ⟨(0, 0)⟩ 2 (by decide) true false).1,
    (HandleListSelection_ctrl_inverts unitQueries (fun _ => true) fiveTracks (by decide)
      ⟨(0, 0)⟩ 2 (by decide) true false).2.2.2⟩

/-! ## `SelectTrackLength` -/

section TrackLength

variable {T : Type} [LinearOrder T]

theorem foldl_min_spec (f : Nat → T) :
    ∀ (ts : List Nat) (v : T),
      (ts.foldl (fun m x => min m (f x)) v ≤ v ∧
        ∀ t, t ∈ ts → ts.foldl (fun m x => min m (f x)) v ≤ f t) ∧
      (ts.foldl (fun m x => min m (f x)) v = v ∨
        ∃ t, t ∈ ts ∧ ts.foldl (fun m x => min m (f x)) v = f t) := by
  intro ts
  induction ts with
  | nil => intro v; simp
  | cons a ts ih =>
    intro v
    rw [List.foldl_cons]
    obtain ⟨⟨h1, h2⟩, h3⟩ := ih (min v (f a))
    refine ⟨⟨le_trans h1 (min_le_left _ _), ?_⟩, ?_⟩
    · intro t ht
      rcases List.mem_cons.mp ht with rfl | ht
      · exact le_trans h1 (min_le_right _ _)
      · exact h2 t ht
    · rcases h3 with h | ⟨t, ht, h⟩
      · rcases min_choice v (f a) with hv | ha
        · left; rw [h, hv]
        · right; exact ⟨a, List.mem_cons_self _ _, by rw [h, ha]⟩
      · right; exact ⟨t, List.mem_cons_of_mem _ ht, h⟩

theorem foldl_max_spec (f : Nat → T) :
    ∀ (ts : List Nat) (v : T),
      (v ≤ ts.foldl (fun m x => max m (f x)) v ∧
        ∀ t, t ∈ ts → f t ≤ ts.foldl (fun m x => max m (f x)) v) ∧
      (ts.foldl (fun m x => max m (f x)) v = v ∨
        ∃ t, t ∈ ts ∧ ts.foldl (fun m x => max m (f x)) v = f t) := by
  intro ts
  induction ts with
  | nil => intro v; simp
  | cons a ts ih =>
    intro v
    rw [List.foldl_cons]
    obtain ⟨⟨h1, h2⟩, h3⟩ := ih (max v (f a))
    refine ⟨⟨le_trans (le_max_left _ _) h1, ?_⟩, ?_⟩
    · intro t ht
      rcases List.mem_cons.mp ht with rfl | ht
      · exact le_trans (le_max_right _ _) h1
      · exact h2 t ht
    · rcases h3 with h | ⟨t, ht, h⟩
      · rcases max_choice v (f a) with hv | ha
        · left; rw [h, hv]
        · right; exact ⟨a, List.mem_cons_self _ _, by rw [h, ha]⟩
      · right; exact ⟨t, List.mem_cons_of_mem _ ht, h⟩

/-- `rangeMin` over a range that is not empty is the least value of the function on it. -/
theorem rangeMin_spec (q : TrackQueries T) (range : List Nat) (f : Nat → T) (hne : range ≠ []) :
    (∃ t, t ∈ range ∧ rangeMin q range f = f t) ∧ ∀ t, t ∈ range → rangeMin q range f ≤ f t := by
  cases range with
  | nil => exact absurd rfl hne
  | cons a ts =>
    obtain ⟨⟨h1, h2⟩, h3⟩ := foldl_min_spec f ts (f a)
    constructor
    · rcases h3 with h | ⟨t, ht, h⟩
      · exact ⟨a, List.mem_cons_self _ _, h⟩
      · exact ⟨t, List.mem_cons_of_mem _ ht, h⟩
    · intro t ht
      rcases List.mem_cons.mp ht with rfl | ht
      · exact h1
      · exact h2 t ht

/-- `rangeMax` over a range that is not empty is the greatest value of the function on it. -/
theorem rangeMax_spec (q : TrackQueries T) (range : List Nat) (f : Nat → T) (hne : range ≠ []) :
    (∃ t, t ∈ range ∧ rangeMax q range f = f t) ∧ ∀ t, t ∈ range → f t ≤ rangeMax q range f := by
  cases range with
  | nil => exact absurd rfl hne
  | cons a ts =>
    obtain ⟨⟨h1, h2⟩, h3⟩ := foldl_max_spec f ts (f a)
    constructor
    · rcases h3 with h | ⟨t, ht, h⟩
      · exact ⟨a, List.mem_cons_self _ _, h⟩
      · exact ⟨t, List.mem_cons_of_mem _ ht, h⟩
    · intro t ht
      rcases List.mem_cons.mp ht with rfl | ht
      · exact h1
      · exact h2 t ht

/-- C15.  `SelectTrackLength` hands to `selectedRegion.setTimes` the times `(m, M)` where, over
the sync-lock group of the track when `syncLocked` is true and over the channels of the track
otherwise (a range that is not empty), `m` is the least start offset and `M` the greatest end
time: both are attained in the range, the region `[m, M]` contains the extent of every track of
the range, every region that does so contains `[m, M]`, and the leaders and their selected
flags are as before. -/
theorem SelectTrackLength_region (q : TrackQueries T) (viewInfo : ViewInfo T)
    (tracks : TrackList) (track : Nat) (syncLocked : Bool)
    (hne : (if syncLocked then q.Group track else q.Channels track) ≠ []) :
    (∃ t, t ∈ (if syncLocked then q.Group track else q.Channels track) ∧
      (SelectTrackLength q viewInfo tracks track syncLocked).1.selectedRegion.1 =
        q.GetOffset t) ∧
    (∃ t, t ∈ (if syncLocked then q.Group track else q.Channels track) ∧
      (SelectTrackLength q viewInfo tracks track syncLocked).1.selectedRegion.2 =
        q.GetEndTime t) ∧
    (∀ t, t ∈ (if syncLocked then q.Group track else q.Channels track) →
      (SelectTrackLength q viewInfo tracks track syncLocked).1.selectedRegion.1 ≤
          q.GetOffset t ∧
        q.GetEndTime t ≤
          (SelectTrackLength q viewInfo tracks track syncLocked).1.selectedRegion.2) ∧
    (∀ a b : T,
      (∀ t, t ∈ (if syncLocked then q.Group track else q.Channels track) →
        a ≤ q.GetOffset t ∧ q.GetEndTime t ≤ b) →
      a ≤ (SelectTrackLength q viewInfo tracks track syncLocked).1.selectedRegion.1 ∧
        (SelectTrackLength q viewInfo tracks track syncLocked).1.selectedRegion.2 ≤ b) ∧
    (SelectTrackLength q viewInfo tracks track syncLocked).2 = tracks := by
  obtain ⟨⟨tm, htm, hm⟩, hmin⟩ := rangeMin_spec q _ q.GetOffset hne
  obtain ⟨⟨tM, htM, hM⟩, hmax⟩ := rangeMax_spec q _ q.GetEndTime hne
  refine ⟨⟨tm, htm, hm⟩, ⟨tM, htM, hM⟩, fun t ht => ⟨hmin t ht, hmax t ht⟩, ?_, rfl⟩
  intro a b hab
  constructor
  · show a ≤ rangeMin q _ q.GetOffset
    rw [hm]
    exact (hab tm htm).1
  · show rangeMax q _ q.GetEndTime ≤ b
    rw [hM]
    exact (hab tM htM).2

end TrackLength

/-- An instance of `SelectTrackLength_region`: a sync-lock group of three tracks with extents
`[4, 9]`, `[2, 5]` and `[3, 12]` gives the region `[2, 12]`. -/
theorem SelectTrackLength_region_witness :
    (SelectTrackLength groupQueries ⟨(0, 0)⟩ fiveTracks.2 1 true).1.selectedRegion = (2, 12) ∧
    ∀ t, t ∈ [1, 2, 3] →
      (SelectTrackLength groupQueries ⟨(0, 0)⟩ fiveTracks.2 1 true).1.selectedRegion.1 ≤
          groupQueries.GetOffset t ∧
        groupQueries.GetEndTime t ≤
          (SelectTrackLength groupQueries ⟨(0, 0)⟩ fiveTracks.2 1 true).1.selectedRegion.2 :=
  ⟨rfl, (SelectTrackLength_region groupQueries ⟨(0, 0)⟩ fiveTracks.2 1 true (by decide)).2.2.1⟩

/-! ## `WaveTrack::Region` -/

section RegionOrder

variable {T : Type} [LinearOrder T]

theorem Double.lt_num (x y : T) : Double.lt (Double.num x) (Double.num y) = decide (x < y) := rfl

theorem Double.le_num (x y : T) : Double.le (Double.num x) (Double.num y) = decide (x ≤ y) := rfl

theorem Double.lt_eq_true (a b : Double T) (h : Double.lt a b = true) :
    ∃ x y, a = Double.num x ∧ b = Double.num y ∧ x < y := by
  cases a with
  | nan => cases b <;> simp [Double.lt] at h
  | num x =>
    cases b with
    | nan => simp [Double.lt] at h
    | num y => exact ⟨x, y, rfl, rfl, by simpa [Double.lt] using h⟩

omit [LinearOrder T] in
theorem Double.exists_num (a : Double T) (h : a ≠ Double.nan) : ∃ x, a = Double.num x := by
  cases a with
  | nan => exact absurd rfl h
  | num x => exact ⟨x, rfl⟩

/-- C16 (amended).  `operator <` of `WaveTrack::Region` compares the start times only (the end
times do not enter), and on start times that are numbers it is the order of the numbers.  It is
irreflexive, asymmetric and transitive on all regions.  On regions whose start time is not
not-a-number its equivalence (neither region less than the other) is transitive and is equality
of the start times, and a sequence of such regions that is sorted with it has non-decreasing
start times. -/
theorem Region_lt_strict_weak_ordering :
    (∀ (a b : Region T) (e₁ e₂ : Double T),
      Region.lt { a with end_ := e₁ } { b with end_ := e₂ } = Region.lt a b) ∧
    (∀ (a b : Region T) (x y : T), a.start = Double.num x → b.start = Double.num y →
      (Region.lt a b = true ↔ x < y)) ∧
    (∀ a : Region T, Region.lt a a = false) ∧
    (∀ a b : Region T, Region.lt a b = true → Region.lt b a = false) ∧
    (∀ a b c : Region T, Region.lt a b = true → Region.lt b c = true → Region.lt a c = true) ∧
    (∀ a b c : Region T, a.start ≠ Double.nan → b.start ≠ Double.nan → c.start ≠ Double.nan →
      Region.equiv a b → Region.equiv b c → Region.equiv a c) ∧
    (∀ a b : Region T, a.start ≠ Double.nan → b.start ≠ Double.nan →
      (Region.equiv a b ↔ a.start = b.start)) ∧
    (∀ regions : List (Region T), (∀ r, r ∈ regions → r.start ≠ Double.nan) →
      Region.Sorted regions → Region.NonDecreasing regions) := by
  have hequiv : ∀ a b : Region T, a.start ≠ Double.nan → b.start ≠ Double.nan →
      (Region.equiv a b ↔ a.start = b.start) := by
    intro a b ha hb
    obtain ⟨x, hx⟩ := Double.exists_num a.start ha
    obtain ⟨y, hy⟩ := Double.exists_num b.start hb
    unfold Region.equiv Region.lt
    rw [hx, hy, Double.lt_num, Double.lt_num]
    simp only [decide_eq_false_iff_not, not_lt, Double.num.injEq]
    constructor
    · rintro ⟨h1, h2⟩
      exact le_antisymm h2 h1
    · intro h
      exact ⟨le_of_eq h.symm, le_of_eq h⟩
  refine ⟨fun _ _ _ _ => rfl, ?_, ?_, ?_, ?_, ?_, hequiv, ?_⟩
  · intro a b x y ha hb
    unfold Region.lt
    rw [ha, hb, Double.lt_num]
    simp
  · intro a
    unfold Region.lt
    cases a.start with
    | nan => rfl
    | num x => simp [Double.lt]
  · intro a b h
    obtain ⟨x, y, hx, hy, hxy⟩ := Double.lt_eq_true _ _ h
    unfold Region.lt
    rw [hx, hy, Double.lt_num]
    simp [le_of_lt hxy]
  · intro a b c hab hbc
    obtain ⟨x, y, hx, hy, hxy⟩ := Double.lt_eq_true _ _ hab
    obtain ⟨y', z, hy', hz, hyz⟩ := Double.lt_eq_true _ _ hbc
    rw [hy] at hy'
    cases hy'
    unfold Region.lt
    rw [hx, hz, Double.lt_num]
    simp [lt_trans hxy hyz]
  · intro a b c ha hb hc hab hbc
    rw [hequiv a b ha hb] at hab
    rw [hequiv b c hb hc] at hbc
    rw [hequiv a c ha hc, hab, hbc]
  · intro regions hnum hsorted
    unfold Region.Sorted at hsorted
    unfold Region.NonDecreasing
    refine List.Pairwise.imp_of_mem ?_ hsorted
    intro a b ha hb hlt
    obtain ⟨x, hx⟩ := Double.exists_num a.start (hnum a ha)
    obtain ⟨y, hy⟩ := Double.exists_num b.start (hnum b hb)
    unfold Region.lt at hlt
    rw [hx, hy, Double.lt_num] at hlt
    rw [hx, hy, Double.le_num]
    simpa using hlt

end RegionOrder

/-- An instance of `Region_lt_strict_weak_ordering`: the regions `[3, 9]`, `[3, 4]` and
`[5, 6]` over whole-number times. -/
theorem Region_lt_strict_weak_ordering_witness :
    Region.lt (⟨Double.num 3, Double.num 9⟩ : Region Int) ⟨Double.num 5, Double.num 6⟩ = true ∧
    Region.equiv (⟨Double.num 3, Double.num 9⟩ : Region Int) ⟨Double.num 3, Double.num 4⟩ ∧
    Region.NonDecreasing
      [(⟨Double.num 3, Double.num 9⟩ : Region Int), ⟨Double.num 3, Double.num 4⟩,
        ⟨Double.num 5, Double.num 6⟩] :=
  ⟨(Region_lt_strict_weak_ordering.2.1 _ _ 3 5 rfl rfl).mpr (by decide),
    (Region_lt_strict_weak_ordering.2.2.2.2.2.2.1 _ _ (by simp) (by simp)).mpr rfl,
    Region_lt_strict_weak_ordering.2.2.2.2.2.2.2 _ (by simp) (by
      simp [Region.Sorted, Region.lt, Double.lt])⟩

/-- C16 (counterexample).  With a region whose start time is not-a-number: it is equivalent
under `operator <` both to a region that starts at 1 and to a region that starts at 2, which are
not equivalent to each other; it is equivalent to the region that starts at 1 although the start
times differ; and the sequence of the region starting at 1 followed by it is sorted with
`operator <`, yet its start times are not non-decreasing. -/
theorem Region_equiv_not_transitive_with_nan :
    Region.equiv (⟨Double.num 1, Double.num 0⟩ : Region Int) ⟨Double.nan, Double.num 0⟩ ∧
    Region.equiv (⟨Double.nan, Double.num 0⟩ : Region Int) ⟨Double.num 2, Double.num 0⟩ ∧
    ¬ Region.equiv (⟨Double.num 1, Double.num 0⟩ : Region Int) ⟨Double.num 2, Double.num 0⟩ ∧
    (Double.num 1 : Double Int) ≠ Double.nan ∧
    Region.Sorted [(⟨Double.num 1, Double.num 0⟩ : Region Int), ⟨Double.nan, Double.num 0⟩] ∧
    ¬ Region.NonDecreasing
      [(⟨Double.num 1, Double.num 0⟩ : Region Int), ⟨Double.nan, Double.num 0⟩] := by
  refine ⟨⟨rfl, rfl⟩, ⟨rfl, rfl⟩, ?_, ?_, ?_, ?_⟩
  · intro h
    have := h.1
    revert this
    decide
  · intro h
    cases h
  · simp [Region.Sorted, Region.lt, Double.lt]
  · simp [Region.NonDecreasing, Double.le]

end Audacity
